import Mathlib

/-! Connectivity table `Faces` (src/core/Faces.cpp), and further down the STL
loader and saver that use it.

Shallow embedding of the class `Faces` and of its queries.

Modelling conventions.
* A `vector<int>` is a `List Int`; a C++ `int` is an `Int`.  Signed arithmetic is
  exact and not wrapped: signed overflow is undefined in C++.  The model agrees
  with the source while no `int` operation overflows, which needs a sequence of
  more than `2^31 - 1` entries or a vertex index equal to `INT_MAX`; the theorem
  on the vertex count, the one value computed by an addition on an input value
  (`maxVertexIndex + 1`, line 57), assumes vertex indices below `INT_MAX`.
* `size_t` arithmetic is defined modulo `2^64` and is modelled so: the bound
  `coordIndex.size() - 1` of the pair scan is `sizeMinusOne`.
* Every `operator[]` whose index is not guarded by a test on the same vector is
  a checked access: an index outside the vector is a fault (`none`).  The
  constructor and the queries therefore return an `Option`.
* A `for` loop with a known trip count is a structural recursion on the number
  of iterations that remain.
-/

set_option autoImplicit false
set_option linter.dupNamespace false

namespace Faces

/-- The data members of a `Faces` object. -/
structure FacesState where
  coordIndex : List Int
  nVertices : Int
  nFaces : Int
  faceFirstCorner : List Int
  cornerToFace : List Int
deriving DecidableEq, Repr

/-- Read `v[i]` for an `int` index `i`; an index outside the vector is a fault. -/
def readAt (v : List Int) (i : Int) : Option Int :=
  if 0 ≤ i then v[i.toNat]? else none

/-- Write `v[i] = x` for an index `i`; an index outside the vector is a fault. -/
def writeAt (v : List Int) (i : Nat) (x : Int) : Option (List Int) :=
  if i < v.length then some (v.set i x) else none

/-- The value `n - 1` computed on `size_t` (unsigned, 64 bits): `0 - 1` wraps to
`2^64 - 1`.  It is `(n + (2^64 - 1)) % 2^64`, see `sizeMinusOne_eq_mod`; the
case split keeps the term small when `n` is not a numeral. -/
def sizeMinusOne (n : Nat) : Nat := if n = 0 then 2 ^ 64 - 1 else (n - 1) % 2 ^ 64

/-- Lines 47-53: `n` iterations of the counting loop from index `i`, with the
running values of `nFaces` and `maxVertexIndex`. -/
def countScan (coordIndex : List Int) : Nat → Nat → Int → Int → Option (Int × Int)
  | 0, _, nFaces, maxVertexIndex => some (nFaces, maxVertexIndex)
  | n + 1, i, nFaces, maxVertexIndex =>
    match coordIndex[i]? with
    | none => none
    | some v =>
      if v = -1 then countScan coordIndex n (i + 1) (nFaces + 1) maxVertexIndex
      else if v > maxVertexIndex then countScan coordIndex n (i + 1) nFaces v
      else countScan coordIndex n (i + 1) nFaces maxVertexIndex

/-- Lines 65-68: the seed of face 0 when the sequence does not start with the
sentinel; returns `faceFirstCorner` and `faceIdx`. -/
def seedFirstCorner (coordIndex faceFirstCorner : List Int) : Option (List Int × Nat) :=
  match coordIndex with
  | [] => some (faceFirstCorner, 0)
  | v :: _ =>
    if v ≠ -1 then
      match writeAt faceFirstCorner 0 0 with
      | none => none
      | some ffc => some (ffc, 1)
    else some (faceFirstCorner, 0)

/-- Lines 70-75: `n` iterations of the pair scan from index `i`. -/
def firstCornerScan (coordIndex : List Int) :
    Nat → Nat → List Int → Nat → Option (List Int × Nat)
  | 0, _, faceFirstCorner, faceIdx => some (faceFirstCorner, faceIdx)
  | n + 1, i, faceFirstCorner, faceIdx =>
    match coordIndex[i]? with
    | none => none
    | some a =>
      if a = -1 then
        match coordIndex[i + 1]? with
        | none => none
        | some b =>
          if b ≠ -1 then
            match writeAt faceFirstCorner faceIdx ((i : Int) + 1) with
            | none => none
            | some ffc => firstCornerScan coordIndex n (i + 1) ffc (faceIdx + 1)
          else firstCornerScan coordIndex n (i + 1) faceFirstCorner faceIdx
      else firstCornerScan coordIndex n (i + 1) faceFirstCorner faceIdx

/-- Lines 82-89: `n` iterations of the corner loop from index `i`. -/
def cornerScan (coordIndex : List Int) :
    Nat → Nat → List Int → Int → Option (List Int)
  | 0, _, cornerToFace, _ => some cornerToFace
  | n + 1, i, cornerToFace, faceIdx =>
    match coordIndex[i]? with
    | none => none
    | some v =>
      if v = -1 then
        match writeAt cornerToFace i (-1) with
        | none => none
        | some c2f => cornerScan coordIndex n (i + 1) c2f (faceIdx + 1)
      else
        match writeAt cornerToFace i faceIdx with
        | none => none
        | some c2f => cornerScan coordIndex n (i + 1) c2f faceIdx

/-- The constructor `Faces::Faces(nV, coordIndex)`, lines 40-90.  The result is
`none` when an access of the constructor leaves its vector. -/
def Faces (nV : Int) (coordIndex : List Int) : Option FacesState :=
  match countScan coordIndex coordIndex.length 0 0 (-1) with
  | none => none
  | some (nFaces, maxVertexIndex) =>
    let nVertices := if maxVertexIndex + 1 > nV then maxVertexIndex + 1 else nV
    match seedFirstCorner coordIndex (List.replicate nFaces.toNat 0) with
    | none => none
    | some (ffc0, faceIdx0) =>
      match firstCornerScan coordIndex (sizeMinusOne coordIndex.length) 0 ffc0 faceIdx0 with
      | none => none
      | some (faceFirstCorner, _) =>
        match cornerScan coordIndex coordIndex.length 0
            (List.replicate coordIndex.length 0) 0 with
        | none => none
        | some cornerToFace =>
          some { coordIndex := coordIndex, nVertices := nVertices, nFaces := nFaces,
                 faceFirstCorner := faceFirstCorner, cornerToFace := cornerToFace }

/-- `Faces::getNumberOfVertices`. -/
def getNumberOfVertices (t : FacesState) : Int := t.nVertices

/-- `Faces::getNumberOfFaces`. -/
def getNumberOfFaces (t : FacesState) : Int := t.nFaces

/-- `Faces::getNumberOfCorners`. -/
def getNumberOfCorners (t : FacesState) : Int := t.coordIndex.length

/-- The loop of `getFaceSize`, line 112: at most `n` more iterations from
index `i`; the read of `coordIndex[i]` is guarded by `i < coordIndex.size()`. -/
def faceSizeLoop (coordIndex : List Int) : Nat → Nat → Int → Int
  | 0, _, count => count
  | n + 1, i, count =>
    if h : i < coordIndex.length then
      if coordIndex[i] ≠ -1 then faceSizeLoop coordIndex n (i + 1) (count + 1)
      else count
    else count

/-- `Faces::getFaceSize`, lines 104-117.  A negative `start` compares as a
huge `size_t`, so the loop does not run. -/
def getFaceSize (t : FacesState) (iF : Int) : Option Int :=
  if iF < 0 ∨ iF ≥ t.nFaces then some 0
  else
    match readAt t.faceFirstCorner iF with
    | none => none
    | some start =>
      if start < 0 then some 0
      else some (faceSizeLoop t.coordIndex (t.coordIndex.length - start.toNat) start.toNat 0)

/-- `Faces::getFaceFirstCorner`, lines 119-124. -/
def getFaceFirstCorner (t : FacesState) (iF : Int) : Option Int :=
  if iF < 0 ∨ iF ≥ t.nFaces then some (-1)
  else readAt t.faceFirstCorner iF

/-- `Faces::getFaceVertex`, lines 127-134. -/
def getFaceVertex (t : FacesState) (iF j : Int) : Option Int :=
  if iF < 0 ∨ iF ≥ t.nFaces ∨ j < 0 then some (-1)
  else
    match getFaceSize t iF with
    | none => none
    | some size =>
      if j ≥ size then some (-1)
      else
        match readAt t.faceFirstCorner iF with
        | none => none
        | some first => readAt t.coordIndex (first + j)

/-- `Faces::getCornerFace`, lines 136-142. -/
def getCornerFace (t : FacesState) (iC : Int) : Option Int :=
  if iC < 0 ∨ iC ≥ t.coordIndex.length then some (-1)
  else readAt t.cornerToFace iC

/-- `Faces::getNextCorner`, lines 144-161. -/
def getNextCorner (t : FacesState) (iC : Int) : Option Int :=
  if iC < 0 ∨ iC ≥ t.coordIndex.length then some (-1)
  else if t.coordIndex[iC.toNat]? = some (-1) then some (-1)
  else
    let nextIdx := iC + 1
    if nextIdx ≥ t.coordIndex.length ∨ t.coordIndex[nextIdx.toNat]? = some (-1) then
      match readAt t.cornerToFace iC with
      | none => none
      | some faceIdx =>
        if faceIdx ≥ 0 ∧ faceIdx < t.nFaces then readAt t.faceFirstCorner faceIdx
        else some (-1)
    else some nextIdx

/-! ## Notions of the specification -/

/-- The running maximum of the counting loop over a list of values: the
largest non-sentinel value above the start value `m`. -/
def scanMax : List Int → Int → Int
  | [], m => m
  | v :: l, m => if v = -1 then scanMax l m else if v > m then scanMax l v else scanMax l m

/-- Position `p` holds the sentinel. -/
def sentinelAt (coordIndex : List Int) (p : Nat) : Prop := coordIndex[p]? = some (-1)

instance (coordIndex : List Int) (p : Nat) : Decidable (sentinelAt coordIndex p) :=
  inferInstanceAs (Decidable (coordIndex[p]? = some (-1)))

/-- Position `p` is inside the sequence and holds a vertex index. -/
def cornerAt (coordIndex : List Int) (p : Nat) : Prop :=
  p < coordIndex.length ∧ ¬ sentinelAt coordIndex p

instance (coordIndex : List Int) (p : Nat) : Decidable (cornerAt coordIndex p) :=
  inferInstanceAs (Decidable (p < coordIndex.length ∧ ¬ sentinelAt coordIndex p))

/-- Position `p` is a run start: it holds a vertex index and it is position 0
or follows a sentinel. -/
def runStart (coordIndex : List Int) (p : Nat) : Prop :=
  cornerAt coordIndex p ∧ (p = 0 ∨ sentinelAt coordIndex (p - 1))

instance (coordIndex : List Int) (p : Nat) : Decidable (runStart coordIndex p) :=
  inferInstanceAs (Decidable (cornerAt coordIndex p ∧ (p = 0 ∨ sentinelAt coordIndex (p - 1))))

/-- Number of run starts at positions strictly before `p`. -/
def runStartsBefore (coordIndex : List Int) (p : Nat) : Nat :=
  (List.range p).countP (fun q => decide (runStart coordIndex q))

/-- Number of sentinels at positions strictly before `p`. -/
def sentinelsBefore (coordIndex : List Int) (p : Nat) : Nat :=
  (coordIndex.take p).count (-1)

/-- Length of the longest block of consecutive non-sentinel values that starts
at position `s`: it stops at the next sentinel or at the end of the sequence. -/
def runLength (coordIndex : List Int) (s : Nat) : Nat :=
  ((coordIndex.drop s).takeWhile (fun v => decide (v ≠ -1))).length

/-- The sequence does not start with the sentinel and has no two adjacent
sentinels: every sentinel closes a run of at least one vertex index. -/
def WellFormed (coordIndex : List Int) : Prop :=
  ¬ sentinelAt coordIndex 0 ∧ ∀ p, sentinelAt coordIndex p → ¬ sentinelAt coordIndex (p + 1)

/-- Position `p` is the first position of the maximal run of non-sentinel
positions that contains position `c`. -/
def RunFirst (coordIndex : List Int) (c p : Nat) : Prop :=
  p ≤ c ∧ (∀ q, p ≤ q → q ≤ c → cornerAt coordIndex q) ∧
    (p = 0 ∨ sentinelAt coordIndex (p - 1))

/-- The result of `k` applications of `getNextCorner` from position `c`. -/
def iterNext (t : FacesState) : Nat → Int → Option Int
  | 0, c => some c
  | k + 1, c => (iterNext t k c).bind (getNextCorner t)

/-- The traversal property of face `f`: `getFaceSize(f)` applications of
`getNextCorner` from `getFaceFirstCorner(f)` come back to it, and every position
visited on the way has `getCornerFace(pos) = f`. -/
def FaceCycle (t : FacesState) (f : Int) : Prop :=
  ∃ first size : Nat, getFaceFirstCorner t f = some (first : Int) ∧
    getFaceSize t f = some (size : Int) ∧
    iterNext t size first = some (first : Int) ∧
    ∀ k, k ≤ size → ∃ pos, iterNext t k first = some pos ∧ getCornerFace t pos = some f

/-- The description of `getNextCorner(c)`: `-1` when `c` is outside
`[0, getNumberOfCorners())` or holds the sentinel; otherwise `c + 1` when that
position is inside the sequence and holds no sentinel, and otherwise the first
position of the maximal run of non-sentinel positions that contains `c`. -/
def NextCornerSpec (t : FacesState) (coordIndex : List Int) (c : Int) : Prop :=
  ((c < 0 ∨ getNumberOfCorners t ≤ c ∨ sentinelAt coordIndex c.toNat) →
      getNextCorner t c = some (-1)) ∧
    (0 ≤ c → c < getNumberOfCorners t → ¬ sentinelAt coordIndex c.toNat →
      (cornerAt coordIndex (c.toNat + 1) → getNextCorner t c = some (c + 1)) ∧
      (¬ cornerAt coordIndex (c.toNat + 1) →
        ∃ p : Nat, RunFirst coordIndex c.toNat p ∧ getNextCorner t c = some (p : Int)))

/-- Value `m` is the largest vertex index (non-sentinel value) of the sequence. -/
def LargestIndex (coordIndex : List Int) (m : Int) : Prop :=
  m ∈ coordIndex ∧ m ≠ -1 ∧ ∀ x ∈ coordIndex, x ≤ m

/-- The table of scenario A: declared count 0, sequence `0 1 2 -1 2 3 0 -1`. -/
def tableA : FacesState :=
  { coordIndex := [0, 1, 2, -1, 2, 3, 0, -1], nVertices := 4, nFaces := 2,
    faceFirstCorner := [0, 4], cornerToFace := [0, 0, 0, -1, 1, 1, 1, -1] }

/-- The largest value of an `int` (32 bits). -/
def INT_MAX : Int := 2147483647

/-- The smallest value of an `int` (32 bits). -/
def INT_MIN : Int := -2147483648

/-- The table of the sequence `0 -1 -1 1 -1`, declared count 0: two adjacent
sentinels after the first run. -/
def tableDoubled : FacesState :=
  { coordIndex := [0, -1, -1, 1, -1], nVertices := 2, nFaces := 3,
    faceFirstCorner := [0, 3, 0], cornerToFace := [0, -1, -1, 2, -1] }

/-- The table of scenario B: declared count 0, sequence `-1 0 1 2 -1`. -/
def tableB : FacesState :=
  { coordIndex := [-1, 0, 1, 2, -1], nVertices := 3, nFaces := 2,
    faceFirstCorner := [1, 0], cornerToFace := [-1, 1, 1, 1, -1] }

/-- A terminated sequence: not empty, not starting with the sentinel, ending
with the sentinel, without two adjacent sentinels. -/
def Terminated (coordIndex : List Int) : Prop :=
  coordIndex ≠ [] ∧ WellFormed coordIndex ∧ sentinelAt coordIndex (coordIndex.length - 1)

/-- The state of the pair scan once the positions below `m` are processed:
`k` run starts are recorded, slot `j < k` holds the `j`-th run start, the other
slots still hold the `0` of `resize`. -/
def FirstInv (ci : List Int) (m : Nat) (ffc : List Int) (k : Nat) : Prop :=
  k = runStartsBefore ci m ∧
  (∀ j, j < k → ∃ p : Nat, ffc[j]? = some (p : Int) ∧ p < m ∧ runStart ci p ∧
    runStartsBefore ci p = j) ∧
  (∀ j, k ≤ j → j < ffc.length → ffc[j]? = some 0)

/-- What the constructor establishes when it completes. -/
structure Built (nV : Int) (ci : List Int) (t : FacesState) : Prop where
  coordIndex_eq : t.coordIndex = ci
  ne_nil : ci ≠ []
  nFaces_eq : t.nFaces = (ci.count (-1) : Int)
  nVertices_eq : t.nVertices = if scanMax ci (-1) + 1 > nV then scanMax ci (-1) + 1 else nV
  ffc_length : t.faceFirstCorner.length = ci.count (-1)
  ffc_inv : FirstInv ci ci.length t.faceFirstCorner (runStartsBefore ci ci.length)
  c2f_length : t.cornerToFace.length = ci.length
  c2f_eq : ∀ j, j < ci.length →
    t.cornerToFace[j]? = some (if sentinelAt ci j then -1 else (sentinelsBefore ci j : Int))

end Faces

/-! ## The STL loader (src/io/LoaderStl.cpp)

A `float` is a value of an arbitrary type `F`: the loader only stores the values
it reads.  The conversion of a token to a `float` is the parameter `parseFloat`. -/

namespace LoaderStl

/-- Modelled from the spec: the ASCII tokenizer (class `Tokenizer`) is not among
the sources.  It is a string, the current token, over the tokens of the file
that are not read yet. -/
structure Tokenizer where
  token : String
  input : List String
deriving DecidableEq, Repr

/-- Modelled from the spec: `Tokenizer::get` reads the next token of the file
into the tokenizer and returns whether there was one. -/
def Tokenizer.get (tkn : Tokenizer) : Bool × Tokenizer :=
  match tkn.input with
  | [] => (false, { token := "", input := [] })
  | s :: rest => (true, { token := s, input := rest })

/-- Modelled from the spec: `Tokenizer::equals` compares the current token. -/
def Tokenizer.equals (tkn : Tokenizer) (s : String) : Bool := decide (tkn.token = s)

/-- The test `tkn.get() && tkn.equals(s)`, whose negation guards the throws of
`parseFacet`; `equals` is evaluated only when `get` succeeds. -/
def Tokenizer.expect (tkn : Tokenizer) (s : String) : Bool × Tokenizer :=
  match tkn.get with
  | (false, t) => (false, t)
  | (true, t) => (t.equals s, t)

/-- Modelled from the spec: `Tokenizer::getFloat` reads the next token and
converts it; it fails when there is no token or the token is no number. -/
def Tokenizer.getFloat {F : Type} (parseFloat : String → Option F) (tkn : Tokenizer) :
    Option F × Tokenizer :=
  match tkn.get with
  | (false, t) => (none, t)
  | (true, t) => (parseFloat t.token, t)

/-- The three arrays of the IndexedFaceSet that `parseFacet` appends to. -/
structure Arrays (F : Type) where
  coord : List F
  coordIndex : List Int
  normal : List F
deriving DecidableEq, Repr

/-- The exceptions of the loader, one per message of the source. -/
inductive StrException where
  | expectedNormal
  | normalX
  | normalY
  | normalZ
  | expectedOuter
  | expectedLoop
  | expectedVertex
  | vertexX
  | vertexY
  | vertexZ
  | expectedEndloop
  | expectedEndfacet
deriving DecidableEq, Repr

/-- How a call of `parseFacet` ends. -/
inductive Outcome where
  | returned (b : Bool)
  | threw (e : StrException)
deriving DecidableEq, Repr

/-- Lines 85-99: `n` iterations of the vertex loop from counter `i`; the result
is the exception thrown, if any, the tokenizer and the arrays. -/
def vertexLoop {F : Type} (parseFloat : String → Option F) (startVertexIndex : Int) :
    Nat → Int → Tokenizer → Arrays F → Option StrException × Tokenizer × Arrays F
  | 0, _, tkn, a => (none, tkn, a)
  | n + 1, i, tkn, a =>
    match tkn.expect "vertex" with
    | (false, t0) => (some StrException.expectedVertex, t0, a)
    | (true, t0) =>
      match t0.getFloat parseFloat with
      | (none, t1) => (some StrException.vertexX, t1, a)
      | (some x, t1) =>
        match t1.getFloat parseFloat with
        | (none, t2) => (some StrException.vertexY, t2, a)
        | (some y, t2) =>
          match t2.getFloat parseFloat with
          | (none, t3) => (some StrException.vertexZ, t3, a)
          | (some z, t3) =>
            vertexLoop parseFloat startVertexIndex n (i + 1) t3
              { coord := a.coord ++ [x, y, z],
                coordIndex := a.coordIndex ++ [startVertexIndex + i],
                normal := a.normal }

/-- The function `LoaderStl::parseFacet`, lines 53-113: the outcome, the
tokenizer and the arrays after the call. -/
def parseFacet {F : Type} (parseFloat : String → Option F) (tkn : Tokenizer) (a : Arrays F) :
    Outcome × Tokenizer × Arrays F :=
  if tkn.equals "facet" = false then (Outcome.returned false, tkn, a)
  else
    match tkn.expect "normal" with
    | (false, t0) => (Outcome.threw StrException.expectedNormal, t0, a)
    | (true, t0) =>
      match t0.getFloat parseFloat with
      | (none, t1) => (Outcome.threw StrException.normalX, t1, a)
      | (some nx, t1) =>
        match t1.getFloat parseFloat with
        | (none, t2) => (Outcome.threw StrException.normalY, t2, a)
        | (some ny, t2) =>
          match t2.getFloat parseFloat with
          | (none, t3) => (Outcome.threw StrException.normalZ, t3, a)
          | (some nz, t3) =>
            let a1 : Arrays F :=
              { coord := a.coord, coordIndex := a.coordIndex, normal := a.normal ++ [nx, ny, nz] }
            match t3.expect "outer" with
            | (false, t4) => (Outcome.threw StrException.expectedOuter, t4, a1)
            | (true, t4) =>
              match t4.expect "loop" with
              | (false, t5) => (Outcome.threw StrException.expectedLoop, t5, a1)
              | (true, t5) =>
                let startVertexIndex : Int := ((a1.coord.length / 3 : Nat) : Int)
                match vertexLoop parseFloat startVertexIndex 3 0 t5 a1 with
                | (some e, t6, a2) => (Outcome.threw e, t6, a2)
                | (none, t6, a2) =>
                  let a3 : Arrays F :=
                    { coord := a2.coord, coordIndex := a2.coordIndex ++ [-1],
                      normal := a2.normal }
                  match t6.expect "endloop" with
                  | (false, t7) => (Outcome.threw StrException.expectedEndloop, t7, a3)
                  | (true, t7) =>
                    match t7.expect "endfacet" with
                    | (false, t8) => (Outcome.threw StrException.expectedEndfacet, t8, a3)
                    | (true, t8) => (Outcome.returned true, t8, a3)

/-- The twelve values of a facet block: the normal and the three vertices. -/
structure Facet (F : Type) where
  nx : F
  ny : F
  nz : F
  x1 : F
  y1 : F
  z1 : F
  x2 : F
  y2 : F
  z2 : F
  x3 : F
  y3 : F
  z3 : F

/-- The tokens `input` that follow the token `facet` are the rest of a well-formed
facet block with the values `f`, followed by the tokens `rest`. -/
def FacetBlock {F : Type} (parseFloat : String → Option F) (input : List String)
    (f : Facet F) (rest : List String) : Prop :=
  ∃ sn1 sn2 sn3 s1 s2 s3 s4 s5 s6 s7 s8 s9 : String,
    input = "normal" :: sn1 :: sn2 :: sn3 :: "outer" :: "loop" ::
      "vertex" :: s1 :: s2 :: s3 :: "vertex" :: s4 :: s5 :: s6 ::
      "vertex" :: s7 :: s8 :: s9 :: "endloop" :: "endfacet" :: rest ∧
    parseFloat sn1 = some f.nx ∧ parseFloat sn2 = some f.ny ∧ parseFloat sn3 = some f.nz ∧
    parseFloat s1 = some f.x1 ∧ parseFloat s2 = some f.y1 ∧ parseFloat s3 = some f.z1 ∧
    parseFloat s4 = some f.x2 ∧ parseFloat s5 = some f.y2 ∧ parseFloat s6 = some f.z2 ∧
    parseFloat s7 = some f.x3 ∧ parseFloat s8 = some f.y3 ∧ parseFloat s9 = some f.z3

/-- The arrays after `k` calls of `parseFacet` that returned `true`, the first
on empty arrays, each on the arrays left by the one before and on any tokenizer
state. -/
inductive FacetsParsed {F : Type} (parseFloat : String → Option F) : Nat → Arrays F → Prop where
  | zero : FacetsParsed parseFloat 0 { coord := [], coordIndex := [], normal := [] }
  | succ (k : Nat) (a a1 : Arrays F) (tkn tkn1 : Tokenizer) :
      FacetsParsed parseFloat k a →
      parseFacet parseFloat tkn a = (Outcome.returned true, tkn1, a1) →
      FacetsParsed parseFloat (k + 1) a1

/-- The index sequence `0 1 2 -1 3 4 5 -1 ...` of `k` triangles. -/
def triIndex : Nat → List Int
  | 0 => []
  | k + 1 => triIndex k ++ [3 * (k : Int), 3 * (k : Int) + 1, 3 * (k : Int) + 2, -1]

/-- A conversion of tokens for the examples: the tokens `0` and `1`. -/
def parseBit (s : String) : Option Int :=
  if s = "0" then some 0 else if s = "1" then some 1 else none

/-- The values of the facet of the examples. -/
def facetExample : Facet Int :=
  { nx := 0, ny := 0, nz := 1, x1 := 0, y1 := 0, z1 := 0, x2 := 1, y2 := 0, z2 := 0,
    x3 := 0, y3 := 1, z3 := 0 }

/-- The empty arrays of a new IndexedFaceSet. -/
def noArrays : Arrays Int := { coord := [], coordIndex := [], normal := [] }

/-- A tokenizer on a facet block that ends in the second vertex. -/
def truncatedFacet : Tokenizer :=
  { token := "facet",
    input := ["normal", "0", "0", "1", "outer", "loop", "vertex", "0", "0", "0", "vertex", "1"] }

/-- The tokens of one facet of the examples, after the token `facet`. -/
def facetTokens : List String :=
  ["normal", "0", "0", "1", "outer", "loop", "vertex", "0", "0", "0", "vertex", "1", "0", "0",
   "vertex", "0", "1", "0", "endloop", "endfacet"]

/-- The tokens of a file after the token `facet` of its last facet: the rest of
the facet of the examples, then `endsolid mesh`. -/
def lastFacetTokens : List String := facetTokens ++ ["endsolid", "mesh"]

/-- The exception is one of the four thrown before the normal is stored (lines
63-70). -/
def StrException.beforeNormal (e : StrException) : Prop :=
  e = StrException.expectedNormal ∨ e = StrException.normalX ∨ e = StrException.normalY ∨
    e = StrException.normalZ

end LoaderStl

/-! ## The STL saver (src/io/SaverStl.cpp)

The output is the sequence of calls on the file: `fopen`, the lines printed and
`fclose`.  A `float` is a value of an arbitrary type `F`. -/

namespace SaverStl

/-- Modelled from the spec: the node `IndexedFaceSet` is not among the sources;
these are the fields the saver reads. -/
structure IndexedFaceSet (F : Type) where
  name : String
  coord : List F
  coordIndex : List Int
  normal : List F
  normalIndex : List Int
  normalPerVertex : Bool

/-- Modelled from the spec: the geometry field of a `Shape` node: null, an
`IndexedFaceSet`, or a node of another kind. -/
inductive Geometry (F : Type) where
  | null
  | indexedFaceSet (ifs : IndexedFaceSet F)
  | other

/-- Modelled from the spec: a child of the scene graph: null, a `Shape` with its
geometry, or a node of another kind. -/
inductive Node (F : Type) where
  | null
  | shape (geometry : Geometry F)
  | other

/-- A line of the output. -/
inductive Line (F : Type) where
  | solid (name : String)
  | facetNormal (nx ny nz : F)
  | outerLoop
  | vertex (x y z : F)
  | endloop
  | endfacet
  | endsolid (name : String)

/-- A call on the output file. -/
inductive Event (F : Type) where
  | fopen (ok : Bool)
  | fprintf (line : Line F)
  | fclose

/-- The value `save` returns and the calls it made on the file. -/
structure SaveResult (F : Type) where
  success : Bool
  events : List (Event F)

/-- Read `v[i]` in a `vector<float>` for an `int` index `i`; an index outside
the vector is a fault. -/
def readFloat {F : Type} (v : List F) (i : Int) : Option F :=
  if 0 ≤ i then v[i.toNat]? else none

/-- Lines 104-109: `n` iterations of the triangle check from face `iF`; `some
false` is the `return false` of the loop. -/
def checkTriangles (faces : Faces.FacesState) : Nat → Int → Option Bool
  | 0, _ => some true
  | n + 1, iF =>
    match Faces.getFaceSize faces iF with
    | none => none
    | some size => if size ≠ 3 then some false else checkTriangles faces n (iF + 1)

/-- Lines 124-128: `n` iterations of the count of the entries of `normalIndex`
other than `-1`, from index `i`. -/
def countNormals (normalIndex : List Int) : Nat → Nat → Int → Int
  | 0, _, normalCount => normalCount
  | n + 1, i, normalCount =>
    if h : i < normalIndex.length then
      if normalIndex[i] ≠ -1 then countNormals normalIndex n (i + 1) (normalCount + 1)
      else countNormals normalIndex n (i + 1) normalCount
    else normalCount

/-- Line 164: the loop that skips the entries `-1` of `normalIndex`, at most `n`
more iterations from `normalIdx`. -/
def skipSentinels (normalIndex : List Int) : Nat → Nat → Nat
  | 0, normalIdx => normalIdx
  | n + 1, normalIdx =>
    if h : normalIdx < normalIndex.length then
      if normalIndex[normalIdx] = -1 then skipSentinels normalIndex n (normalIdx + 1)
      else normalIdx
    else normalIdx

/-- Lines 177-183 and 201-207: `n` iterations of the vertex loop of face `iF`
from `j`; the lines printed. -/
def writeVertices {F : Type} (faces : Faces.FacesState) (coord : List F) (iF : Int) :
    Nat → Int → Option (List (Event F))
  | 0, _ => some []
  | n + 1, j =>
    match Faces.getFaceVertex faces iF j with
    | none => none
    | some vIdx =>
      match readFloat coord (3 * vIdx + 0), readFloat coord (3 * vIdx + 1),
          readFloat coord (3 * vIdx + 2) with
      | some x, some y, some z =>
        match writeVertices faces coord iF n (j + 1) with
        | none => none
        | some rest => some (Event.fprintf (Line.vertex x y z) :: rest)
      | _, _, _ => none

/-- The lines of one facet: its normal, then its three vertices. -/
def writeFacet {F : Type} (faces : Faces.FacesState) (coord normal : List F) (iF nIdx : Int) :
    Option (List (Event F)) :=
  match readFloat normal (3 * nIdx + 0), readFloat normal (3 * nIdx + 1),
      readFloat normal (3 * nIdx + 2) with
  | some nx, some ny, some nz =>
    match writeVertices faces coord iF 3 0 with
    | none => none
    | some vs =>
      some ([Event.fprintf (Line.facetNormal nx ny nz), Event.fprintf Line.outerLoop] ++ vs ++
        [Event.fprintf Line.endloop, Event.fprintf Line.endfacet])
  | _, _, _ => none

/-- Lines 162-190: `n` iterations of the face loop with indexed normals, from
face `iF` and position `normalIdx` of `normalIndex`. -/
def writeIndexed {F : Type} (faces : Faces.FacesState) (coord normal : List F)
    (normalIndex : List Int) : Nat → Int → Nat → Option (List (Event F))
  | 0, _, _ => some []
  | n + 1, iF, normalIdx =>
    let idx := skipSentinels normalIndex (normalIndex.length - normalIdx) normalIdx
    if h : idx < normalIndex.length then
      match writeFacet faces coord normal iF normalIndex[idx] with
      | none => none
      | some facet =>
        match writeIndexed faces coord normal normalIndex n (iF + 1) (idx + 1) with
        | none => none
        | some rest => some (facet ++ rest)
    else writeIndexed faces coord normal normalIndex n (iF + 1) idx

/-- Lines 193-211: `n` iterations of the face loop without `normalIndex`, from
face `iF`. -/
def writeUnindexed {F : Type} (faces : Faces.FacesState) (coord normal : List F) :
    Nat → Int → Option (List (Event F))
  | 0, _ => some []
  | n + 1, iF =>
    match writeFacet faces coord normal iF iF with
    | none => none
    | some facet =>
      match writeUnindexed faces coord normal n (iF + 1) with
      | none => none
      | some rest => some (facet ++ rest)

/-- The function `SaverStl::save`, lines 51-224, on a file name (`none` is the
null pointer), on whether `fopen` succeeds, and on the children of the scene
graph.  The result is `none` when an access leaves its vector. -/
def save {F : Type} (filename : Option String) (canOpen : Bool) (wrl : List (Node F)) :
    Option (SaveResult F) :=
  match filename with
  | none => some { success := false, events := [] }
  | some fname =>
    match wrl with
    | [Node.shape (Geometry.indexedFaceSet ifs)] =>
      let nV : Int := ((ifs.coord.length / 3 : Nat) : Int)
      match Faces.Faces nV ifs.coordIndex with
      | none => none
      | some faces =>
        let nFaces := Faces.getNumberOfFaces faces
        match checkTriangles faces nFaces.toNat 0 with
        | none => none
        | some false => some { success := false, events := [] }
        | some true =>
          if ifs.normalPerVertex then some { success := false, events := [] }
          else if ifs.normal.length = 0 then some { success := false, events := [] }
          else
            let normalCount : Int :=
              if ifs.normalIndex.length > 0 then
                countNormals ifs.normalIndex ifs.normalIndex.length 0 0
              else ((ifs.normal.length / 3 : Nat) : Int)
            if normalCount ≠ nFaces then some { success := false, events := [] }
            else if canOpen = false then some { success := false, events := [Event.fopen false] }
            else
              let solidName := if ifs.name.length > 0 then ifs.name else "mesh"
              let body :=
                if ifs.normalIndex.length > 0 then
                  writeIndexed faces ifs.coord ifs.normal ifs.normalIndex nFaces.toNat 0 0
                else writeUnindexed faces ifs.coord ifs.normal nFaces.toNat 0
              match body with
              | none => none
              | some facets =>
                some { success := true,
                       events := [Event.fopen true, Event.fprintf (Line.solid fname)] ++ facets ++
                         [Event.fprintf (Line.endsolid solidName), Event.fclose] }
    | _ => some { success := false, events := [] }

/-- The number of per-face normals the saver compares with the number of faces:
the entries of `normalIndex` other than `-1` when `normalIndex` is not empty,
and `normal.size() / 3` otherwise. -/
def perFaceNormals {F : Type} (ifs : IndexedFaceSet F) : Int :=
  if ifs.normalIndex ≠ [] then ((ifs.normalIndex.countP (fun v => decide (v ≠ -1)) : Nat) : Int)
  else ((ifs.normal.length / 3 : Nat) : Int)

/-- An example with one triangle in `coord` and a coordIndex `0 1 -1` whose only
face has two corners. -/
def twoCornerMesh : IndexedFaceSet Int :=
  { name := "", coord := [0, 0, 0, 1, 0, 0, 0, 1, 0], coordIndex := [0, 1, -1],
    normal := [0, 0, 1], normalIndex := [], normalPerVertex := false }

/-- The table of `twoCornerMesh`. -/
def twoCornerTable : Faces.FacesState :=
  { coordIndex := [0, 1, -1], nVertices := 3, nFaces := 1, faceFirstCorner := [0],
    cornerToFace := [0, 0, -1] }

/-- The checks of `save` that precede `fopen` (lines 94-136) pass on the
IndexedFaceSet `ifs`: its table `t` is built, every face has size 3, the normals
are per face, `normal` is not empty and the number of per-face normals is the
number of faces. -/
def ValidationPasses {F : Type} (ifs : IndexedFaceSet F) (t : Faces.FacesState) : Prop :=
  Faces.Faces ((ifs.coord.length / 3 : Nat) : Int) ifs.coordIndex = some t ∧
    (∀ f : Int, 0 ≤ f → f < Faces.getNumberOfFaces t → Faces.getFaceSize t f = some 3) ∧
    ifs.normalPerVertex = false ∧ ifs.normal ≠ [] ∧
    perFaceNormals ifs = Faces.getNumberOfFaces t

/-- The three vertices of face `f` can be read in `coord`: for `j` in `0, 1, 2`,
`v = getFaceVertex(f, j)` has `0 <= v` and `3 v + 2 < coord.size()`. -/
def FaceInBounds {F : Type} (t : Faces.FacesState) (coord : List F) (f : Int) : Prop :=
  ∀ j : Int, 0 ≤ j → j < 3 →
    ∃ v : Int, Faces.getFaceVertex t f j = some v ∧ 0 ≤ v ∧ 3 * v + 2 < (coord.length : Int)

/-- The bounds of the reads of the write loops: every face can be read in
`coord`, and the normal index `n` used for face `f` has `3 n + 2 <
normal.size()`, where `n = f` when `normalIndex` is empty and `n` is the `f`-th
entry of `normalIndex` other than `-1` otherwise. -/
def ReadsInBounds {F : Type} (ifs : IndexedFaceSet F) (t : Faces.FacesState) : Prop :=
  (∀ f : Int, 0 ≤ f → f < Faces.getNumberOfFaces t → FaceInBounds t ifs.coord f) ∧
    (ifs.normalIndex = [] → ∀ f : Int, 0 ≤ f → f < Faces.getNumberOfFaces t →
      3 * f + 2 < (ifs.normal.length : Int)) ∧
    (ifs.normalIndex ≠ [] → ∀ f : Nat, (f : Int) < Faces.getNumberOfFaces t →
      ∃ n : Int, (ifs.normalIndex.filter (fun v => decide (v ≠ -1)))[f]? = some n ∧
        3 * n + 2 < (ifs.normal.length : Int))

/-- Every entry of `coordIndex` is `-1` or the index of a vertex of `coord`, and
every entry of `normalIndex` is `-1` or the index of a normal of `normal`. -/
def IndicesInRange {F : Type} (ifs : IndexedFaceSet F) : Prop :=
  (∀ v ∈ ifs.coordIndex, v = -1 ∨ (0 ≤ v ∧ v < ((ifs.coord.length / 3 : Nat) : Int))) ∧
    (∀ n ∈ ifs.normalIndex, n = -1 ∨ (0 ≤ n ∧ n < ((ifs.normal.length / 3 : Nat) : Int)))

/-- An example with three vertices in `coord` and a triangle `0 1 5`. -/
def farVertexMesh : IndexedFaceSet Int :=
  { name := "", coord := [0, 0, 0, 1, 0, 0, 0, 1, 0], coordIndex := [0, 1, 5, -1],
    normal := [0, 0, 1], normalIndex := [], normalPerVertex := false }

/-- The table of `farVertexMesh`. -/
def farVertexTable : Faces.FacesState :=
  { coordIndex := [0, 1, 5, -1], nVertices := 6, nFaces := 1, faceFirstCorner := [0],
    cornerToFace := [0, 0, 0, -1] }

/-- An example with one normal in `normal` and a normal index `7`. -/
def farNormalMesh : IndexedFaceSet Int :=
  { name := "", coord := [0, 0, 0, 1, 0, 0, 0, 1, 0], coordIndex := [0, 1, 2, -1],
    normal := [0, 0, 1], normalIndex := [7], normalPerVertex := false }

/-- An example with one triangle and an indexed normal after a `-1`. -/
def indexedTriangleMesh : IndexedFaceSet Int :=
  { name := "", coord := [0, 0, 0, 1, 0, 0, 0, 1, 0], coordIndex := [0, 1, 2, -1],
    normal := [0, 0, 1], normalIndex := [-1, 0], normalPerVertex := false }

/-- The table of the triangle `0 1 2` with declared count 3. -/
def oneTriangleTable : Faces.FacesState :=
  { coordIndex := [0, 1, 2, -1], nVertices := 3, nFaces := 1, faceFirstCorner := [0],
    cornerToFace := [0, 0, 0, -1] }

end SaverStl

namespace Faces

/-! ## The scans of the constructor -/

theorem drop_cons_step {ci : List Int} {i : Nat} {v : Int} {l : List Int}
    (h : ci.drop i = v :: l) : ci[i]? = some v ∧ ci.drop (i + 1) = l := by
  constructor
  · have h0 : (ci.drop i)[0]? = some v := by rw [h]; simp
    rw [List.getElem?_drop] at h0
    simpa using h0
  · have h1 : (ci.drop i).drop 1 = l := by rw [h]; simp
    rw [List.drop_drop] at h1
    rw [← h1, Nat.add_comm]

theorem countScan_eq (ci : List Int) :
    ∀ (l : List Int) (i : Nat) (nF mx : Int), ci.drop i = l →
      countScan ci l.length i nF mx = some (nF + l.count (-1), scanMax l mx) := by
  intro l
  induction l with
  | nil => intro i nF mx _; simp [countScan, scanMax]
  | cons v l ih =>
    intro i nF mx h
    obtain ⟨hv, hd⟩ := drop_cons_step h
    simp only [List.length_cons, countScan, hv]
    by_cases h1 : v = -1
    · subst h1
      simp only [if_true, ih (i + 1) (nF + 1) mx hd, scanMax, List.count_cons_self]
      congr 2; push_cast; ring
    · have hne : ((-1 : Int) == v) = false := by
        simp only [beq_eq_false_iff_ne, ne_eq]; exact fun h => h1 h.symm
      by_cases h2 : v > mx
      · simp [h1, h2, ih (i + 1) nF v hd, scanMax, List.count_cons, hne]
      · simp [h1, h2, ih (i + 1) nF mx hd, scanMax, List.count_cons, hne]

theorem countScan_full (ci : List Int) :
    countScan ci ci.length 0 0 (-1) = some ((ci.count (-1) : Int), scanMax ci (-1)) := by
  have h := countScan_eq ci ci 0 0 (-1) (by simp)
  simpa using h

theorem sentinelsBefore_succ (ci : List Int) (i : Nat) (v : Int) (h : ci[i]? = some v) :
    sentinelsBefore ci (i + 1) = sentinelsBefore ci i + (if v = -1 then 1 else 0) := by
  unfold sentinelsBefore
  rw [List.take_succ, h, List.count_append]
  by_cases hv : v = -1
  · subst hv; simp
  · have hne : ((-1 : Int) == v) = false := by
      simp only [beq_eq_false_iff_ne, ne_eq]; exact fun h => hv h.symm
    simp [hv, List.count_cons, hne]

theorem cornerScan_spec (ci : List Int) :
    ∀ (l : List Int) (i : Nat) (c2f : List Int) (k : Int), ci.drop i = l →
      c2f.length = ci.length → k = (sentinelsBefore ci i : Int) →
      ∃ c2f', cornerScan ci l.length i c2f k = some c2f' ∧ c2f'.length = ci.length ∧
        (∀ j, j < i → c2f'[j]? = c2f[j]?) ∧
        (∀ j, i ≤ j → j < ci.length →
          c2f'[j]? = some (if sentinelAt ci j then -1 else (sentinelsBefore ci j : Int))) := by
  intro l
  induction l with
  | nil =>
    intro i c2f k h hlen _
    refine ⟨c2f, by simp [cornerScan], hlen, fun _ _ => rfl, ?_⟩
    intro j hij hj
    have : ci.length ≤ i := by simpa using h
    omega
  | cons v l ih =>
    intro i c2f k h hlen hk
    obtain ⟨hv, hd⟩ := drop_cons_step h
    have hi : i < ci.length := by
      rcases List.getElem?_eq_some_iff.mp hv with ⟨hi, _⟩; exact hi
    have hsucc := sentinelsBefore_succ ci i v hv
    by_cases h1 : v = -1
    · obtain ⟨c2f', hrun, hl', hlt, hge⟩ := ih (i + 1) (c2f.set i (-1)) (k + 1) hd
        (by simpa using hlen) (by rw [hsucc, hk]; simp [h1])
      refine ⟨c2f', ?_, hl', ?_, ?_⟩
      · simp only [List.length_cons, cornerScan, hv, h1, if_true, writeAt, hlen, hi]
        exact hrun
      · intro j hj
        rw [hlt j (by omega), List.getElem?_set_ne (by omega)]
      · intro j hij hj
        by_cases hji : j = i
        · subst hji
          rw [hlt j (by omega), List.getElem?_set_self (by omega)]
          simp [sentinelAt, hv, h1]
        · exact hge j (by omega) hj
    · obtain ⟨c2f', hrun, hl', hlt, hge⟩ := ih (i + 1) (c2f.set i k) k hd
        (by simpa using hlen) (by rw [hsucc, hk]; simp [h1])
      refine ⟨c2f', ?_, hl', ?_, ?_⟩
      · simp only [List.length_cons, cornerScan, hv, h1, if_false, writeAt, hlen, hi, if_true]
        exact hrun
      · intro j hj
        rw [hlt j (by omega), List.getElem?_set_ne (by omega)]
      · intro j hij hj
        by_cases hji : j = i
        · subst hji
          rw [hlt j (by omega), List.getElem?_set_self (by omega)]
          simp [sentinelAt, hv, h1, hk]
        · exact hge j (by omega) hj

theorem cornerScan_full (ci : List Int) :
    ∃ c2f, cornerScan ci ci.length 0 (List.replicate ci.length 0) 0 = some c2f ∧
      c2f.length = ci.length ∧
      ∀ j, j < ci.length →
        c2f[j]? = some (if sentinelAt ci j then -1 else (sentinelsBefore ci j : Int)) := by
  obtain ⟨c2f, h1, h2, _, h4⟩ := cornerScan_spec ci ci 0 (List.replicate ci.length 0) 0
    (by simp) (by simp) (by simp [sentinelsBefore])
  exact ⟨c2f, h1, h2, fun j hj => h4 j (Nat.zero_le j) hj⟩

theorem runStartsBefore_succ (ci : List Int) (m : Nat) :
    runStartsBefore ci (m + 1) = runStartsBefore ci m + (if runStart ci m then 1 else 0) := by
  unfold runStartsBefore
  rw [List.range_succ, List.countP_append]
  by_cases h : runStart ci m <;> simp [h]

theorem runStartsBefore_mono (ci : List Int) {a b : Nat} (h : a ≤ b) :
    runStartsBefore ci a ≤ runStartsBefore ci b := by
  induction b with
  | zero => simp [Nat.le_zero.mp h]
  | succ b ih =>
    rcases Nat.lt_or_ge a (b + 1) with h1 | h1
    · have := ih (by omega)
      rw [runStartsBefore_succ]; omega
    · have : a = b + 1 := by omega
      rw [this]

theorem FirstInv.le_length {ci : List Int} {m : Nat} {ffc : List Int} {k : Nat}
    (h : FirstInv ci m ffc k) : k ≤ ffc.length := by
  by_contra hc
  obtain ⟨p, hp, _⟩ := h.2.1 ffc.length (by omega)
  have : ffc[ffc.length]? = none := List.getElem?_eq_none (Nat.le_refl _)
  rw [this] at hp
  exact Option.noConfusion hp

theorem FirstInv.skip {ci : List Int} {m : Nat} {ffc : List Int} {k : Nat}
    (h : FirstInv ci m ffc k) (hm : ¬ runStart ci m) : FirstInv ci (m + 1) ffc k := by
  obtain ⟨h1, h2, h3⟩ := h
  refine ⟨by rw [runStartsBefore_succ, if_neg hm]; exact h1, ?_, h3⟩
  intro j hj
  obtain ⟨p, hp, hpm, hr⟩ := h2 j hj
  exact ⟨p, hp, by omega, hr⟩

theorem FirstInv.record {ci : List Int} {m : Nat} {ffc : List Int} {k : Nat}
    (h : FirstInv ci m ffc k) (hm : runStart ci m) (hk : k < ffc.length) :
    FirstInv ci (m + 1) (ffc.set k (m : Int)) (k + 1) := by
  obtain ⟨h1, h2, h3⟩ := h
  refine ⟨by rw [runStartsBefore_succ, if_pos hm, h1], ?_, ?_⟩
  · intro j hj
    by_cases hjk : j = k
    · subst hjk
      exact ⟨m, by rw [List.getElem?_set_self hk], by omega, hm, h1.symm⟩
    · obtain ⟨p, hp, hpm, hr⟩ := h2 j (by omega)
      exact ⟨p, by rw [List.getElem?_set_ne (Ne.symm hjk)]; exact hp, by omega, hr⟩
  · intro j hj hjl
    rw [List.getElem?_set_ne (by omega)]
    exact h3 j (by omega) (by simpa using hjl)

theorem firstCornerScan_spec (ci : List Int) :
    ∀ (n i : Nat) (ffc : List Int) (k : Nat) (ffc' : List Int) (k' : Nat),
      firstCornerScan ci n i ffc k = some (ffc', k') → FirstInv ci (i + 1) ffc k →
      ffc'.length = ffc.length ∧ FirstInv ci (i + 1 + n) ffc' k' := by
  intro n
  induction n with
  | zero =>
    intro i ffc k ffc' k' h hinv
    simp only [firstCornerScan, Option.some.injEq, Prod.mk.injEq] at h
    obtain ⟨rfl, rfl⟩ := h
    exact ⟨rfl, hinv⟩
  | succ n ih =>
    intro i ffc k ffc' k' h hinv
    have hshift : i + 1 + (n + 1) = (i + 1) + 1 + n := by omega
    rw [hshift]
    cases ha : ci[i]? with
    | none => simp [firstCornerScan, ha] at h
    | some a =>
      by_cases h1 : a = -1
      · cases hb : ci[i + 1]? with
        | none => simp [firstCornerScan, ha, h1, hb] at h
        | some b =>
          by_cases h2 : b = -1
          · have hns : ¬ runStart ci (i + 1) := by
              simp [runStart, cornerAt, sentinelAt, hb, h2]
            simp only [firstCornerScan, ha, h1, hb, h2, if_true, ne_eq, not_true_eq_false,
              if_false] at h
            exact ih (i + 1) ffc k ffc' k' h (hinv.skip hns)
          · have hrs : runStart ci (i + 1) := by
              have hlt : i + 1 < ci.length := by
                rcases List.getElem?_eq_some_iff.mp hb with ⟨hlt, _⟩; exact hlt
              simp [runStart, cornerAt, sentinelAt, hb, h2, ha, h1, hlt]
            by_cases hk : k < ffc.length
            · simp only [firstCornerScan, ha, h1, hb, h2, if_true, ne_eq, not_false_eq_true,
                writeAt, hk] at h
              have hrec := hinv.record hrs hk
              have := ih (i + 1) (ffc.set k ((i : Int) + 1)) (k + 1) ffc' k' h
                (by simpa using hrec)
              simpa using this
            · simp [firstCornerScan, ha, h1, hb, h2, writeAt, hk] at h
      · have hns : ¬ runStart ci (i + 1) := by
          simp [runStart, sentinelAt, ha, h1]
        simp only [firstCornerScan, ha, h1, if_false] at h
        exact ih (i + 1) ffc k ffc' k' h (hinv.skip hns)

theorem seedFirstCorner_spec (ci ffc0 ffc : List Int) (k : Nat)
    (hz : ∀ j, j < ffc0.length → ffc0[j]? = some 0)
    (h : seedFirstCorner ci ffc0 = some (ffc, k)) :
    ffc.length = ffc0.length ∧ FirstInv ci 1 ffc k := by
  have hbase : FirstInv ci 0 ffc0 0 :=
    ⟨by simp [runStartsBefore], fun j hj => absurd hj (Nat.not_lt_zero j),
      fun j _ hj => hz j hj⟩
  cases ci with
  | nil =>
    simp only [seedFirstCorner, Option.some.injEq, Prod.mk.injEq] at h
    obtain ⟨rfl, rfl⟩ := h
    exact ⟨rfl, hbase.skip (by simp [runStart, cornerAt])⟩
  | cons v l =>
    by_cases hv : v = -1
    · simp only [seedFirstCorner, hv, ne_eq, not_true_eq_false, if_false, Option.some.injEq,
        Prod.mk.injEq] at h
      obtain ⟨rfl, rfl⟩ := h
      exact ⟨rfl, hbase.skip (by simp [runStart, cornerAt, sentinelAt, hv])⟩
    · by_cases h0 : 0 < ffc0.length
      · simp only [seedFirstCorner, hv, ne_eq, not_false_eq_true, if_true, writeAt, h0,
          Option.some.injEq, Prod.mk.injEq] at h
        obtain ⟨rfl, rfl⟩ := h
        have hrs : runStart (v :: l) 0 := by simp [runStart, cornerAt, sentinelAt, hv]
        have := hbase.record hrs h0
        exact ⟨by simp, by simpa using this⟩
      · simp [seedFirstCorner, hv, writeAt, h0] at h


theorem sizeMinusOne_eq_mod (n : Nat) : sizeMinusOne n = (n + (2 ^ 64 - 1)) % 2 ^ 64 := by
  unfold sizeMinusOne
  by_cases h : n = 0
  · subst h
    rw [if_pos rfl, Nat.zero_add]
    exact (Nat.mod_eq_of_lt (Nat.sub_lt (Nat.pos_pow_of_pos 64 (by decide)) (by decide))).symm
  · rw [if_neg h]
    have h1 : n + (2 ^ 64 - 1) = (n - 1) + 2 ^ 64 := by
      have hm : 0 < (2 : Nat) ^ 64 := Nat.pos_pow_of_pos 64 (by decide)
      generalize (2 : Nat) ^ 64 = m at hm ⊢
      omega
    rw [h1, Nat.add_mod_right]

theorem sizeMinusOne_pos (n : Nat) (h0 : 0 < n) (h : n < 2 ^ 64) : sizeMinusOne n = n - 1 := by
  unfold sizeMinusOne
  rw [if_neg (Nat.pos_iff_ne_zero.mp h0)]
  exact Nat.mod_eq_of_lt (Nat.lt_of_le_of_lt (Nat.sub_le n 1) h)

theorem sizeMinusOne_zero : sizeMinusOne 0 = 2 ^ 64 - 1 := by
  unfold sizeMinusOne
  rw [if_pos rfl]

theorem firstCornerScan_nil_succ (n : Nat) (ffc : List Int) (k : Nat) :
    firstCornerScan [] (n + 1) 0 ffc k = none := by
  simp [firstCornerScan]

theorem firstCornerScan_nil (ffc : List Int) (k : Nat) :
    firstCornerScan [] (sizeMinusOne ([] : List Int).length) 0 ffc k = none := by
  have h : sizeMinusOne ([] : List Int).length ≠ 0 := by
    rw [List.length_nil, sizeMinusOne_zero]
    exact Nat.sub_ne_zero_of_lt (Nat.one_lt_two_pow (by decide))
  obtain ⟨n, hn⟩ := Nat.exists_eq_succ_of_ne_zero h
  rw [hn]
  exact firstCornerScan_nil_succ n ffc k

theorem built_of_Faces (nV : Int) (ci : List Int) (t : FacesState)
    (hsize : ci.length < 2 ^ 64) (h : Faces nV ci = some t) : Built nV ci t := by
  obtain ⟨c2f, hc, hcl, hce⟩ := cornerScan_full ci
  unfold Faces at h
  rw [countScan_full] at h
  simp only [Int.toNat_ofNat] at h
  cases hs : seedFirstCorner ci (List.replicate (ci.count (-1)) 0) with
  | none => rw [hs] at h; exact Option.noConfusion h
  | some r0 =>
    obtain ⟨ffc0, k0⟩ := r0
    simp only [hs] at h
    cases hf : firstCornerScan ci (sizeMinusOne ci.length) 0 ffc0 k0 with
    | none => rw [hf] at h; exact Option.noConfusion h
    | some r1 =>
      obtain ⟨ffc, k⟩ := r1
      simp only [hf, hc, Option.some.injEq] at h
      have hne : ci ≠ [] := by
        rintro rfl
        rw [firstCornerScan_nil] at hf
        exact Option.noConfusion hf
      have hpos : 0 < ci.length := List.length_pos.mpr hne
      obtain ⟨hl0, hinv0⟩ := seedFirstCorner_spec ci _ ffc0 k0
        (fun j hj => by
          rw [List.getElem?_replicate_of_lt (by simpa using hj)]) hs
      rw [sizeMinusOne_pos _ hpos hsize] at hf
      clear hsize
      obtain ⟨hl1, hinv1⟩ := firstCornerScan_spec ci _ 0 ffc0 k0 ffc k hf hinv0
      have hfull : 0 + 1 + (ci.length - 1) = ci.length := by omega
      rw [hfull] at hinv1
      have hk : k = runStartsBefore ci ci.length := hinv1.1
      subst h
      exact ⟨rfl, hne, rfl, rfl, by simp [hl1, hl0], by rw [← hk]; exact hinv1, hcl, hce⟩

/-! ## The block of a face -/

theorem takeWhile_length_spec (p : Int → Bool) (l : List Int) :
    (∀ j, j < (l.takeWhile p).length → ∃ v, l[j]? = some v ∧ p v = true) ∧
    (l[(l.takeWhile p).length]? = none ∨
      ∃ v, l[(l.takeWhile p).length]? = some v ∧ p v = false) := by
  induction l with
  | nil => simp
  | cons a l ih =>
    by_cases ha : p a = true
    · rw [List.takeWhile_cons_of_pos ha]
      refine ⟨?_, ?_⟩
      · intro j hj
        cases j with
        | zero => exact ⟨a, by simp, ha⟩
        | succ j =>
          have := ih.1 j (by simpa using hj)
          simpa using this
      · simpa using ih.2
    · rw [List.takeWhile_cons_of_neg ha]
      refine ⟨fun j hj => absurd hj (by simp), Or.inr ⟨a, by simp, by simpa using ha⟩⟩

theorem runLength_le (ci : List Int) (s : Nat) : s + runLength ci s ≤ max s ci.length := by
  have h1 : runLength ci s ≤ (ci.drop s).length := by
    unfold runLength
    exact List.IsPrefix.length_le ( List.takeWhile_prefix _)
  rw [List.length_drop] at h1
  omega

theorem runLength_corner (ci : List Int) (s q : Nat) (h1 : s ≤ q) (h2 : q < s + runLength ci s) :
    cornerAt ci q := by
  obtain ⟨v, hv, hp⟩ := (takeWhile_length_spec (fun v => decide (v ≠ -1)) (ci.drop s)).1 (q - s)
    (by unfold runLength at h2; omega)
  rw [List.getElem?_drop] at hv
  have hq : s + (q - s) = q := by omega
  rw [hq] at hv
  refine ⟨?_, ?_⟩
  · rcases List.getElem?_eq_some_iff.mp hv with ⟨hlt, _⟩; exact hlt
  · unfold sentinelAt
    rw [hv]
    simpa using hp

theorem runLength_stop (ci : List Int) (s : Nat) :
    ci.length ≤ s + runLength ci s ∨ sentinelAt ci (s + runLength ci s) := by
  rcases (takeWhile_length_spec (fun v => decide (v ≠ -1)) (ci.drop s)).2 with h | ⟨v, hv, hp⟩
  · left
    rw [List.getElem?_drop] at h
    exact List.getElem?_eq_none_iff.mp h
  · right
    rw [List.getElem?_drop] at hv
    unfold sentinelAt
    have : v = -1 := by simpa using hp
    rw [← this]; exact hv

theorem runLength_of_corner (ci : List Int) (i : Nat) (h : i < ci.length) (hv : ci[i] ≠ -1) :
    runLength ci i = runLength ci (i + 1) + 1 := by
  unfold runLength
  rw [List.drop_eq_getElem_cons h, List.takeWhile_cons_of_pos (by simpa using hv)]
  simp

theorem runLength_of_sentinel (ci : List Int) (i : Nat) (h : i < ci.length) (hv : ci[i] = -1) :
    runLength ci i = 0 := by
  unfold runLength
  rw [List.drop_eq_getElem_cons h, List.takeWhile_cons_of_neg (by simpa using hv)]
  simp

theorem runLength_of_ge (ci : List Int) (i : Nat) (h : ci.length ≤ i) : runLength ci i = 0 := by
  unfold runLength
  rw [List.drop_eq_nil_of_le h]
  simp

theorem faceSizeLoop_eq (ci : List Int) :
    ∀ (n i : Nat) (count : Int), ci.length - i ≤ n →
      faceSizeLoop ci n i count = count + (runLength ci i : Int) := by
  intro n
  induction n with
  | zero =>
    intro i count h
    rw [runLength_of_ge ci i (by omega)]
    simp [faceSizeLoop]
  | succ n ih =>
    intro i count h
    by_cases hi : i < ci.length
    · by_cases hv : ci[i] = -1
      · rw [runLength_of_sentinel ci i hi hv]
        simp [faceSizeLoop, hi, hv]
      · rw [runLength_of_corner ci i hi hv]
        simp only [faceSizeLoop, hi, dite_true, ne_eq, hv, not_false_eq_true, if_true]
        rw [ih (i + 1) (count + 1) (by omega)]
        push_cast; ring
    · rw [runLength_of_ge ci i (by omega)]
      simp [faceSizeLoop, hi]

/-! ## The queries on a constructed table -/

theorem readAt_nat (v : List Int) (i : Nat) : readAt v (i : Int) = v[i]? := by
  simp [readAt]

theorem readAt_of_nonneg (v : List Int) (i : Int) (h : 0 ≤ i) : readAt v i = v[i.toNat]? := by
  simp [readAt, h]

/-- The stored first corner of a face id in range: a position of the sequence,
the `f`-th run start when there are more than `f` run starts, and the `0` left
by `resize` otherwise. -/
theorem Built.face_lookup {nV : Int} {ci : List Int} {t : FacesState} (hb : Built nV ci t)
    (f : Int) (h0 : 0 ≤ f) (h1 : f < t.nFaces) :
    ∃ p : Nat, readAt t.faceFirstCorner f = some (p : Int) ∧ p < ci.length ∧
      (f.toNat < runStartsBefore ci ci.length → runStart ci p ∧ runStartsBefore ci p = f.toNat) ∧
      (runStartsBefore ci ci.length ≤ f.toNat → p = 0) := by
  have hpos : 0 < ci.length := List.length_pos.mpr hb.ne_nil
  rw [hb.nFaces_eq] at h1
  have hf : f.toNat < ci.count (-1) := by omega
  rw [readAt_of_nonneg _ _ h0]
  obtain ⟨_, hlo, hhi⟩ := hb.ffc_inv
  by_cases hR : f.toNat < runStartsBefore ci ci.length
  · obtain ⟨p, hp, hpl, hrs, hcnt⟩ := hlo f.toNat hR
    exact ⟨p, hp, hpl, fun _ => ⟨hrs, hcnt⟩, fun h => absurd hR (by omega)⟩
  · have := hhi f.toNat (by omega) (by rw [hb.ffc_length]; exact hf)
    exact ⟨0, by simpa using this, hpos, fun h => absurd h hR, fun _ => rfl⟩

theorem Built.getFaceFirstCorner_out {nV : Int} {ci : List Int} {t : FacesState}
    (_hb : Built nV ci t) (f : Int) (h : f < 0 ∨ t.nFaces ≤ f) :
    getFaceFirstCorner t f = some (-1) := by
  simp [getFaceFirstCorner, h]

theorem Built.getFaceFirstCorner_in {nV : Int} {ci : List Int} {t : FacesState}
    (_hb : Built nV ci t) (f : Int) (h0 : 0 ≤ f) (h1 : f < t.nFaces) :
    getFaceFirstCorner t f = readAt t.faceFirstCorner f := by
  have : ¬ (f < 0 ∨ t.nFaces ≤ f) := by omega
  simp [getFaceFirstCorner, this]

theorem Built.getFaceSize_out {nV : Int} {ci : List Int} {t : FacesState}
    (_hb : Built nV ci t) (f : Int) (h : f < 0 ∨ t.nFaces ≤ f) :
    getFaceSize t f = some 0 := by
  simp [getFaceSize, h]

theorem Built.getFaceSize_in {nV : Int} {ci : List Int} {t : FacesState}
    (hb : Built nV ci t) (f : Int) (h0 : 0 ≤ f) (h1 : f < t.nFaces) (p : Nat)
    (hp : readAt t.faceFirstCorner f = some (p : Int)) :
    getFaceSize t f = some (runLength ci p : Int) := by
  have hn : ¬ (f < 0 ∨ t.nFaces ≤ f) := by omega
  have hp0 : ¬ ((p : Int) < 0) := by omega
  simp only [getFaceSize, ge_iff_le, hn, if_false, hp, hp0, Int.toNat_ofNat, hb.coordIndex_eq]
  rw [faceSizeLoop_eq ci _ _ 0 (Nat.le_refl _)]
  simp

theorem Built.getFaceVertex_out {nV : Int} {ci : List Int} {t : FacesState}
    (_hb : Built nV ci t) (f j : Int) (h : f < 0 ∨ t.nFaces ≤ f) :
    getFaceVertex t f j = some (-1) := by
  have : f < 0 ∨ t.nFaces ≤ f ∨ j < 0 := by omega
  simp [getFaceVertex, this]

theorem Built.getFaceVertex_in {nV : Int} {ci : List Int} {t : FacesState}
    (hb : Built nV ci t) (f j : Int) (h0 : 0 ≤ f) (h1 : f < t.nFaces) (p : Nat)
    (hp : readAt t.faceFirstCorner f = some (p : Int)) :
    getFaceVertex t f j =
      if j < 0 ∨ (runLength ci p : Int) ≤ j then some (-1) else ci[p + j.toNat]? := by
  by_cases hj : j < 0
  · have : f < 0 ∨ t.nFaces ≤ f ∨ j < 0 := by omega
    simp [getFaceVertex, this, hj]
  · have hn : ¬ (f < 0 ∨ t.nFaces ≤ f ∨ j < 0) := by omega
    simp only [getFaceVertex, ge_iff_le, hn, if_false, hb.getFaceSize_in f h0 h1 p hp, hj,
      false_or]
    by_cases hs : (runLength ci p : Int) ≤ j
    · simp [hs]
    · simp only [hs, if_false, hp, hb.coordIndex_eq]
      have hj0 : 0 ≤ j := by omega
      obtain ⟨m, rfl⟩ := Int.eq_ofNat_of_zero_le hj0
      have hsum : ((p : Int) + (m : Int)) = ((p + m : Nat) : Int) := by push_cast; rfl
      rw [hsum, readAt_nat, Int.toNat_ofNat]
      rw [if_neg (by intro h; rcases h with h | h | h <;> first | omega | exact h.elim)]

theorem Built.getCornerFace_eq {nV : Int} {ci : List Int} {t : FacesState}
    (hb : Built nV ci t) (c : Nat) (h : c < ci.length) :
    getCornerFace t (c : Int) =
      some (if sentinelAt ci c then -1 else (sentinelsBefore ci c : Int)) := by
  have hn : ¬ ((c : Int) < 0 ∨ (ci.length : Int) ≤ c) := by omega
  simp only [getCornerFace, ge_iff_le, hb.coordIndex_eq, hn, if_false, readAt_nat]
  exact hb.c2f_eq c h

theorem Built.getCornerFace_out {nV : Int} {ci : List Int} {t : FacesState}
    (hb : Built nV ci t) (c : Int) (h : c < 0 ∨ (ci.length : Int) ≤ c) :
    getCornerFace t c = some (-1) := by
  simp [getCornerFace, hb.coordIndex_eq, h]

theorem tableA_built : Faces 0 [0, 1, 2, -1, 2, 3, 0, -1] = some tableA := by decide

theorem tableB_built : Faces 0 [-1, 0, 1, 2, -1] = some tableB := by decide

theorem tableA_size : ([0, 1, 2, -1, 2, 3, 0, -1] : List Int).length < 2 ^ 64 := by decide

/-! ## The running maximum -/

theorem scanMax_ge_start (l : List Int) : ∀ m0 : Int, m0 ≤ scanMax l m0 := by
  induction l with
  | nil => intro m0; simp [scanMax]
  | cons v l ih =>
    intro m0
    unfold scanMax
    split
    · exact ih m0
    · split
      · exact Int.le_trans (by omega) (ih v)
      · exact ih m0

theorem scanMax_ge_mem (l : List Int) :
    ∀ m0 : Int, ∀ x ∈ l, x ≠ -1 → x ≤ scanMax l m0 := by
  induction l with
  | nil => intro m0 x hx; simp at hx
  | cons v l ih =>
    intro m0 x hx hne
    unfold scanMax
    rcases List.mem_cons.mp hx with rfl | hx
    · rw [if_neg hne]
      split
      · exact scanMax_ge_start l x
      · exact Int.le_trans (by omega) (scanMax_ge_start l m0)
    · split
      · exact ih m0 x hx hne
      · split
        · exact ih v x hx hne
        · exact ih m0 x hx hne

theorem scanMax_start_or_mem (l : List Int) :
    ∀ m0 : Int, scanMax l m0 = m0 ∨ (scanMax l m0 ∈ l ∧ scanMax l m0 ≠ -1) := by
  induction l with
  | nil => intro m0; simp [scanMax]
  | cons v l ih =>
    intro m0
    unfold scanMax
    split
    · rcases ih m0 with h | ⟨h1, h2⟩
      · exact Or.inl h
      · exact Or.inr ⟨List.mem_cons_of_mem _ h1, h2⟩
    · rename_i hv
      split
      · rcases ih v with h | ⟨h1, h2⟩
        · exact Or.inr ⟨by rw [h]; exact List.mem_cons_self _ _, by rw [h]; exact hv⟩
        · exact Or.inr ⟨List.mem_cons_of_mem _ h1, h2⟩
      · rcases ih m0 with h | ⟨h1, h2⟩
        · exact Or.inl h
        · exact Or.inr ⟨List.mem_cons_of_mem _ h1, h2⟩

/-! ## Sentinels and run starts of a well-formed sequence -/

theorem sentinelsBefore_step (ci : List Int) (p : Nat) (h : p < ci.length) :
    sentinelsBefore ci (p + 1) = sentinelsBefore ci p + (if sentinelAt ci p then 1 else 0) := by
  have hget : ci[p]? = some ci[p] := List.getElem?_eq_getElem h
  rw [sentinelsBefore_succ ci p ci[p] hget]
  unfold sentinelAt
  simp only [hget, Option.some.injEq]

theorem sentinelsBefore_length (ci : List Int) : sentinelsBefore ci ci.length = ci.count (-1) := by
  unfold sentinelsBefore
  rw [List.take_length]

theorem sentinelsBefore_const (ci : List Int) (a : Nat) :
    ∀ b, a ≤ b → b ≤ ci.length → (∀ q, a ≤ q → q < b → ¬ sentinelAt ci q) →
      sentinelsBefore ci b = sentinelsBefore ci a := by
  intro b
  induction b with
  | zero => intro h _ _; rw [Nat.le_zero.mp h]
  | succ b ih =>
    intro hab hb hq
    rcases Nat.lt_or_ge a (b + 1) with h | h
    · rw [sentinelsBefore_step ci b (by omega), if_neg (hq b (by omega) (by omega))]
      rw [Nat.add_zero]
      exact ih (by omega) (by omega) (fun q h1 h2 => hq q h1 (by omega))
    · have : a = b + 1 := by omega
      rw [this]

/-- In a well-formed sequence the run starts up to a position and the
sentinels up to it are balanced: equal after a sentinel, one run ahead inside
a run. -/
theorem WellFormed.balance {ci : List Int} (hwf : WellFormed ci) :
    ∀ p, p < ci.length →
      runStartsBefore ci (p + 1) =
        sentinelsBefore ci (p + 1) + (if sentinelAt ci p then 0 else 1) := by
  intro p
  induction p with
  | zero =>
    intro h
    have hrs : runStart ci 0 := ⟨⟨h, hwf.1⟩, Or.inl rfl⟩
    rw [runStartsBefore_succ, sentinelsBefore_step ci 0 h, if_pos hrs, if_neg hwf.1, if_neg hwf.1]
    simp [runStartsBefore, sentinelsBefore]
  | succ p ih =>
    intro h
    have ihp := ih (by omega)
    rw [runStartsBefore_succ, sentinelsBefore_step ci (p + 1) h, ihp]
    by_cases hs : sentinelAt ci (p + 1)
    · have hprev : ¬ sentinelAt ci p := fun hp => hwf.2 p hp hs
      have hnr : ¬ runStart ci (p + 1) := fun hr => hr.1.2 hs
      rw [if_pos hs, if_pos hs, if_neg hprev, if_neg hnr]
    · by_cases hprev : sentinelAt ci p
      · have hr : runStart ci (p + 1) := ⟨⟨h, hs⟩, Or.inr (by simpa using hprev)⟩
        rw [if_neg hs, if_neg hs, if_pos hprev, if_pos hr]
      · have hnr : ¬ runStart ci (p + 1) := by
          rintro ⟨_, h0 | h1⟩
          · omega
          · exact hprev (by simpa using h1)
        rw [if_neg hs, if_neg hs, if_neg hprev, if_neg hnr]

theorem runStart_unique (ci : List Int) (p q : Nat) (hp : runStart ci p) (hq : runStart ci q)
    (h : runStartsBefore ci p = runStartsBefore ci q) : p = q := by
  rcases Nat.lt_trichotomy p q with hlt | heq | hgt
  · have h1 := runStartsBefore_mono ci (show p + 1 ≤ q by omega)
    rw [runStartsBefore_succ, if_pos hp] at h1
    omega
  · exact heq
  · have h1 := runStartsBefore_mono ci (show q + 1 ≤ p by omega)
    rw [runStartsBefore_succ, if_pos hq] at h1
    omega

theorem runFirst_exists (ci : List Int) :
    ∀ c, cornerAt ci c → ∃ p, RunFirst ci c p := by
  intro c
  induction c with
  | zero => intro h; exact ⟨0, Nat.le_refl 0, fun q _ h2 => by rw [Nat.le_zero.mp h2]; exact h,
      Or.inl rfl⟩
  | succ c ih =>
    intro h
    by_cases hs : sentinelAt ci c
    · refine ⟨c + 1, Nat.le_refl _, fun q h1 h2 => ?_, Or.inr (by simpa using hs)⟩
      have : q = c + 1 := by omega
      rw [this]; exact h
    · obtain ⟨p, h1, h2, h3⟩ := ih ⟨by have := h.1; omega, hs⟩
      refine ⟨p, by omega, fun q hq1 hq2 => ?_, h3⟩
      rcases Nat.lt_or_ge q (c + 1) with hlt | hge
      · exact h2 q hq1 (by omega)
      · have : q = c + 1 := by omega
        rw [this]; exact h

theorem RunFirst.runStart {ci : List Int} {c p : Nat} (h : RunFirst ci c p) : runStart ci p :=
  ⟨h.2.1 p (Nat.le_refl p) h.1, h.2.2⟩

/-- A constructed table of a well-formed sequence: the sequence ends with a
sentinel and has as many run starts as sentinels. -/
theorem Built.terminated {nV : Int} {ci : List Int} {t : FacesState} (hb : Built nV ci t)
    (hwf : WellFormed ci) :
    sentinelAt ci (ci.length - 1) ∧ runStartsBefore ci ci.length = ci.count (-1) := by
  have hpos : 0 < ci.length := List.length_pos.mpr hb.ne_nil
  have hbal := hwf.balance (ci.length - 1) (by omega)
  have hlen : ci.length - 1 + 1 = ci.length := by omega
  rw [hlen, sentinelsBefore_length] at hbal
  have hle := hb.ffc_inv.le_length
  rw [hb.ffc_length] at hle
  by_cases hs : sentinelAt ci (ci.length - 1)
  · rw [if_pos hs] at hbal
    exact ⟨hs, by omega⟩
  · rw [if_neg hs] at hbal
    omega

/-- In a well-formed sequence a run start has as many sentinels before it as
run starts. -/
theorem WellFormed.sentinelsBefore_runStart {ci : List Int} (hwf : WellFormed ci) (p : Nat)
    (hp : runStart ci p) : sentinelsBefore ci p = runStartsBefore ci p := by
  have hbal := hwf.balance p hp.1.1
  rw [runStartsBefore_succ, if_pos hp, sentinelsBefore_step ci p hp.1.1, if_neg hp.1.2,
    if_neg hp.1.2] at hbal
  omega

/-! ## `getNextCorner` on a constructed table -/

theorem Built.getNextCorner_out {nV : Int} {ci : List Int} {t : FacesState}
    (hb : Built nV ci t) (c : Int)
    (h : c < 0 ∨ (ci.length : Int) ≤ c ∨ sentinelAt ci c.toNat) :
    getNextCorner t c = some (-1) := by
  unfold getNextCorner
  rw [hb.coordIndex_eq]
  by_cases h2 : c < 0 ∨ c ≥ (ci.length : Int)
  · rw [if_pos h2]
  · have h3 : ci[c.toNat]? = some (-1) := by
      rcases h with h | h | h
      · omega
      · omega
      · exact h
    rw [if_neg h2, if_pos h3]

theorem Built.getNextCorner_corner {nV : Int} {ci : List Int} {t : FacesState}
    (hb : Built nV ci t) (c : Nat) (hc : cornerAt ci c) :
    getNextCorner t (c : Int) =
      if cornerAt ci (c + 1) then some ((c : Int) + 1)
      else if (sentinelsBefore ci c : Int) < t.nFaces then
        readAt t.faceFirstCorner (sentinelsBefore ci c : Int)
      else some (-1) := by
  obtain ⟨hlt, hns⟩ := hc
  have h1 : ¬ ((c : Int) < 0 ∨ (c : Int) ≥ (ci.length : Int)) := by omega
  have h2 : ¬ (ci[c]? = some (-1)) := hns
  have hnat : ((c : Int) + 1).toNat = c + 1 := by omega
  have hread : readAt t.cornerToFace (c : Int) = some (sentinelsBefore ci c : Int) := by
    rw [readAt_nat, hb.c2f_eq c hlt, if_neg hns]
  unfold getNextCorner
  simp only [hb.coordIndex_eq, h1, if_false, Int.toNat_ofNat, h2, hnat, hread]
  by_cases hn : cornerAt ci (c + 1)
  · have h3 : ¬ ((c : Int) + 1 ≥ (ci.length : Int) ∨ ci[c + 1]? = some (-1)) := by
      rintro (h | h)
      · have := hn.1; omega
      · exact hn.2 h
    rw [if_neg h3, if_pos hn]
  · have h3 : (c : Int) + 1 ≥ (ci.length : Int) ∨ ci[c + 1]? = some (-1) := by
      by_cases hl : c + 1 < ci.length
      · right
        by_contra hne
        exact hn ⟨hl, hne⟩
      · left; omega
    rw [if_pos h3, if_neg hn]
    have h4 : (sentinelsBefore ci c : Int) ≥ 0 := by omega
    by_cases h5 : (sentinelsBefore ci c : Int) < t.nFaces
    · rw [if_pos ⟨h4, h5⟩, if_pos h5]
    · rw [if_neg (fun h => h5 h.2), if_neg h5]

theorem iterNext_succ (t : FacesState) (k : Nat) (c : Int) :
    iterNext t (k + 1) c = (iterNext t k c).bind (getNextCorner t) := rfl

/-- On a constructed table of a well-formed sequence, face `f` is the `f`-th
run: its first corner `p` is a run start after `f` sentinels, its block is not
empty and is closed by a sentinel. -/
theorem Built.face_run {nV : Int} {ci : List Int} {t : FacesState} (hb : Built nV ci t)
    (hwf : WellFormed ci) (f : Int) (h0 : 0 ≤ f) (h1 : f < t.nFaces) :
    ∃ p : Nat, readAt t.faceFirstCorner f = some (p : Int) ∧ runStart ci p ∧
      (sentinelsBefore ci p : Int) = f ∧ 0 < runLength ci p ∧
      sentinelAt ci (p + runLength ci p) := by
  obtain ⟨hlast, hR⟩ := hb.terminated hwf
  obtain ⟨p, hp, hpl, hrun, _⟩ := hb.face_lookup f h0 h1
  have hf : f.toNat < runStartsBefore ci ci.length := by
    rw [hR]; have := hb.nFaces_eq; omega
  obtain ⟨hrs, hcnt⟩ := hrun hf
  have hsb := hwf.sentinelsBefore_runStart p hrs
  have hlen : 0 < runLength ci p := by
    have hv : ci[p] ≠ -1 := by
      intro h
      apply hrs.1.2
      unfold sentinelAt
      rw [List.getElem?_eq_getElem hpl, h]
    rw [runLength_of_corner ci p hpl hv]
    omega
  refine ⟨p, hp, hrs, by omega, hlen, ?_⟩
  rcases runLength_stop ci p with h | h
  · have hle := runLength_le ci p
    have hmax : max p ci.length = ci.length := by omega
    rw [hmax] at hle
    have hc := runLength_corner ci p (ci.length - 1) (by omega) (by omega)
    exact absurd hlast hc.2
  · exact h

theorem Built.iterNext_inside {nV : Int} {ci : List Int} {t : FacesState} (hb : Built nV ci t)
    (p : Nat) :
    ∀ k, k < runLength ci p → iterNext t k (p : Int) = some ((p + k : Nat) : Int) := by
  intro k
  induction k with
  | zero => intro _; rfl
  | succ k ih =>
    intro hk
    rw [iterNext_succ, ih (by omega), Option.some_bind,
      hb.getNextCorner_corner (p + k) (runLength_corner ci p (p + k) (by omega) (by omega)),
      if_pos (runLength_corner ci p (p + k + 1) (by omega) (by omega))]
    congr 1

theorem Built.faceCycle {nV : Int} {ci : List Int} {t : FacesState} (hb : Built nV ci t)
    (hwf : WellFormed ci) (f : Int) (h0 : 0 ≤ f) (h1 : f < t.nFaces) : FaceCycle t f := by
  obtain ⟨p, hp, hrs, hsb, hlen, hstop⟩ := hb.face_run hwf f h0 h1
  have hsame : ∀ k, k < runLength ci p → sentinelsBefore ci (p + k) = sentinelsBefore ci p := by
    intro k hk
    have hc := runLength_corner ci p (p + k) (by omega) (by omega)
    exact sentinelsBefore_const ci p (p + k) (by omega) (by have := hc.1; omega)
      (fun q hq1 hq2 => (runLength_corner ci p q hq1 (by omega)).2)
  have hface : ∀ k, k < runLength ci p →
      getCornerFace t ((p + k : Nat) : Int) = some f := by
    intro k hk
    have hc := runLength_corner ci p (p + k) (by omega) (by omega)
    rw [hb.getCornerFace_eq (p + k) hc.1, if_neg hc.2, hsame k hk, hsb]
  have hback : iterNext t (runLength ci p) (p : Int) = some (p : Int) := by
    obtain ⟨n, hn⟩ := Nat.exists_eq_succ_of_ne_zero (Nat.pos_iff_ne_zero.mp hlen)
    have hlast := runLength_corner ci p (p + n) (by omega) (by omega)
    have hnext : ¬ cornerAt ci (p + n + 1) := by
      intro hc
      apply hc.2
      have : p + n + 1 = p + runLength ci p := by omega
      rw [this]; exact hstop
    rw [hn, iterNext_succ, hb.iterNext_inside p n (by omega), Option.some_bind,
      hb.getNextCorner_corner (p + n) hlast, if_neg hnext, hsame n (by omega), hsb, if_pos h1]
    exact hp
  refine ⟨p, runLength ci p, ?_, hb.getFaceSize_in f h0 h1 p hp, hback, ?_⟩
  · rw [hb.getFaceFirstCorner_in f h0 h1]; exact hp
  · intro k hk
    rcases Nat.lt_or_ge k (runLength ci p) with hlt | hge
    · exact ⟨_, hb.iterNext_inside p k hlt, hface k hlt⟩
    · have hkeq : k = runLength ci p := by omega
      rw [hkeq]
      exact ⟨_, hback, by simpa using hface 0 hlen⟩

theorem Built.nextCornerSpec {nV : Int} {ci : List Int} {t : FacesState} (hb : Built nV ci t)
    (hwf : WellFormed ci) (c : Int) : NextCornerSpec t ci c := by
  unfold NextCornerSpec getNumberOfCorners
  rw [hb.coordIndex_eq]
  refine ⟨fun h => hb.getNextCorner_out c h, ?_⟩
  intro h0 hlt hns
  obtain ⟨m, rfl⟩ := Int.eq_ofNat_of_zero_le h0
  rw [Int.toNat_ofNat] at hns ⊢
  have hm : m < ci.length := by omega
  have hc : cornerAt ci m := ⟨hm, hns⟩
  have hnext := hb.getNextCorner_corner m hc
  refine ⟨fun hin => by rw [hnext, if_pos hin], fun hnin => ?_⟩
  obtain ⟨p, hp⟩ := runFirst_exists ci m hc
  refine ⟨p, hp, ?_⟩
  obtain ⟨_, hR⟩ := hb.terminated hwf
  have hrs := hp.runStart
  have hsame : sentinelsBefore ci m = sentinelsBefore ci p :=
    sentinelsBefore_const ci p m hp.1 (by omega) (fun q h1 h2 => (hp.2.1 q h1 (by omega)).2)
  have hsb := hwf.sentinelsBefore_runStart p hrs
  have hmono := runStartsBefore_mono ci (show p + 1 ≤ ci.length by have := hrs.1.1; omega)
  rw [runStartsBefore_succ, if_pos hrs] at hmono
  have hlt2 : (sentinelsBefore ci m : Int) < t.nFaces := by
    rw [hb.nFaces_eq]; omega
  obtain ⟨p2, hp2, _, hrun, _⟩ := hb.face_lookup (sentinelsBefore ci m : Int) (by omega) hlt2
  rw [Int.toNat_ofNat] at hrun
  obtain ⟨hrs2, hcnt2⟩ := hrun (by omega)
  have hpp : p2 = p := runStart_unique ci p2 p hrs2 hrs (by omega)
  rw [hnext, if_neg hnin, if_pos hlt2, hp2, hpp]

theorem wellFormed_scenarioA : WellFormed [0, 1, 2, -1, 2, 3, 0, -1] := by
  refine ⟨by decide, ?_⟩
  intro p hp
  have hlt : p < 8 := by
    rcases List.getElem?_eq_some_iff.mp hp with ⟨h, _⟩
    simpa using h
  interval_cases p <;> revert hp <;> decide

/-! ## Claims -/

/-- C1 (as stated, refuted): in the table of the sequence `-1 0 1 2 -1`, face 0
starts at position 1 and has size 3, and three applications of `getNextCorner`
from position 1 end at position 0, not at position 1. -/
theorem face_cycle_fails_after_leading_sentinel :
    Faces 0 [-1, 0, 1, 2, -1] = some tableB ∧ (0 : Int) ≤ 0 ∧
      (0 : Int) < getNumberOfFaces tableB ∧ iterNext tableB 3 1 = some 0 ∧
      ¬ FaceCycle tableB 0 := by
  refine ⟨tableB_built, by decide, by decide, by decide, ?_⟩
  rintro ⟨first, size, hf, hs, hback, _⟩
  have e1 : getFaceFirstCorner tableB 0 = some 1 := by decide
  have e2 : getFaceSize tableB 0 = some 3 := by decide
  rw [e1] at hf
  rw [e2] at hs
  have h1 : first = 1 := by
    have := Option.some.inj hf
    omega
  have h2 : size = 3 := by
    have := Option.some.inj hs
    omega
  subst h1 h2
  revert hback
  decide

/-- C1 (amended): on a constructed table of a sequence that does not start with
the sentinel and has no two adjacent sentinels, for every face id `f` in
`[0, getNumberOfFaces())`, `getFaceSize(f)` applications of `getNextCorner` from
`getFaceFirstCorner(f)` come back to `getFaceFirstCorner(f)`, and every position
visited on the way has `getCornerFace(pos) = f`. -/
theorem face_cycle_of_wellFormed (nV : Int) (coordIndex : List Int) (t : FacesState)
    (hsize : coordIndex.length < 2 ^ 64) (hbuilt : Faces nV coordIndex = some t)
    (hwf : WellFormed coordIndex) (f : Int) (hf0 : 0 ≤ f) (hf1 : f < getNumberOfFaces t) :
    FaceCycle t f :=
  (built_of_Faces nV coordIndex t hsize hbuilt).faceCycle hwf f hf0 hf1

/-- C1 (amended), at scenario A, face 1. -/
theorem face_cycle_of_wellFormed_witness : FaceCycle tableA 1 :=
  face_cycle_of_wellFormed 0 [0, 1, 2, -1, 2, 3, 0, -1] tableA tableA_size tableA_built
    wellFormed_scenarioA 1 (by decide) (by decide)

/-- C2: on a constructed table, for every face id `f` and every integer `j`,
`getFaceVertex(f, j)` returns a value, and that value is different from `-1`
if and only if `0 <= j < getFaceSize(f)`. -/
theorem faceVertex_defined_iff (nV : Int) (coordIndex : List Int) (t : FacesState)
    (hsize : coordIndex.length < 2 ^ 64) (hbuilt : Faces nV coordIndex = some t)
    (f j : Int) :
    ∃ v size : Int, getFaceVertex t f j = some v ∧ getFaceSize t f = some size ∧
      (v ≠ -1 ↔ 0 ≤ j ∧ j < size) := by
  have hb := built_of_Faces nV coordIndex t hsize hbuilt
  clear hsize
  by_cases hout : f < 0 ∨ t.nFaces ≤ f
  · refine ⟨-1, 0, hb.getFaceVertex_out f j hout, hb.getFaceSize_out f hout, ?_⟩
    constructor
    · intro h; exact absurd rfl h
    · intro h; omega
  · have h0 : 0 ≤ f := by omega
    have h1 : f < t.nFaces := by omega
    obtain ⟨p, hp, _, _, _⟩ := hb.face_lookup f h0 h1
    have hv := hb.getFaceVertex_in f j h0 h1 p hp
    have hs := hb.getFaceSize_in f h0 h1 p hp
    by_cases hj : j < 0 ∨ (runLength coordIndex p : Int) ≤ j
    · rw [if_pos hj] at hv
      refine ⟨-1, _, hv, hs, ?_⟩
      constructor
      · intro h; exact absurd rfl h
      · intro h; omega
    · rw [if_neg hj] at hv
      have hc := runLength_corner coordIndex p (p + j.toNat) (by omega) (by omega)
      obtain ⟨hlt, hns⟩ := hc
      have hget : coordIndex[p + j.toNat]? = some (coordIndex[p + j.toNat]) :=
        List.getElem?_eq_getElem hlt
      refine ⟨coordIndex[p + j.toNat], _, by rw [hv, hget], hs, ?_⟩
      constructor
      · intro _; omega
      · intro _ heq
        apply hns
        unfold sentinelAt
        rw [hget, heq]

/-- C2, at the table of scenario A: `getFaceVertex(1, 2)` and `getFaceSize(1)`. -/
theorem faceVertex_defined_iff_witness :
    ∃ v size : Int, getFaceVertex tableA 1 2 = some v ∧ getFaceSize tableA 1 = some size ∧
      (v ≠ -1 ↔ (0 : Int) ≤ 2 ∧ 2 < size) :=
  faceVertex_defined_iff 0 [0, 1, 2, -1, 2, 3, 0, -1] tableA tableA_size tableA_built 1 2

/-- C3 (the code does not meet it): on the empty sequence the constructor
leaves its vectors for every declared count, the bound `coordIndex.size() - 1`
of the pair scan being `2^64 - 1`, so that `coordIndex[0]` is read; and on the
unterminated sequence `0 1 2` it writes `faceFirstCorner[0]` into a vector of
size 0. -/
theorem constructor_faults :
    (∀ nV : Int, Faces nV [] = none) ∧ sizeMinusOne ([] : List Int).length = 2 ^ 64 - 1 ∧
      Faces 0 [0, 1, 2] = none := by
  refine ⟨fun nV => ?_, sizeMinusOne_zero, by decide⟩
  unfold Faces
  rw [countScan_full]
  simp only [seedFirstCorner, firstCornerScan_nil]

/-- C4: the number of faces of a constructed table is the number of positions
of the sequence that hold the sentinel. -/
theorem numberOfFaces_eq_sentinels (nV : Int) (coordIndex : List Int) (t : FacesState)
    (hsize : coordIndex.length < 2 ^ 64) (hbuilt : Faces nV coordIndex = some t) :
    getNumberOfFaces t = (coordIndex.count (-1) : Int) :=
  (built_of_Faces nV coordIndex t hsize hbuilt).nFaces_eq

/-- C4, at scenario A: two sentinels, two faces. -/
theorem numberOfFaces_eq_sentinels_witness :
    getNumberOfFaces tableA = (([0, 1, 2, -1, 2, 3, 0, -1] : List Int).count (-1) : Int) :=
  numberOfFaces_eq_sentinels 0 [0, 1, 2, -1, 2, 3, 0, -1] tableA tableA_size tableA_built

/-- C5 (the code does not meet it on the empty sequence): on the empty sequence
the constructor leaves its vectors and builds no table, for every declared count,
so no vertex count `nV` is returned there.  On every table it builds, from a
declared count that is an `int` and a sequence of values `>= -1` and below
`INT_MAX`, the vertex count is an `int` value computed without overflow; it is
`max(nV, 1 + m)` for the largest vertex index `m` of the sequence; it is at least
`nV` and at least `1 + x` for every value `x` of the sequence; and it is `nV`
when the sequence holds only sentinels and `nV >= 0`. -/
theorem numberOfVertices_eq_max (nV : Int) (coordIndex : List Int)
    (hsize : coordIndex.length < 2 ^ 64) (hnV : INT_MIN ≤ nV ∧ nV ≤ INT_MAX)
    (hvals : ∀ x ∈ coordIndex, -1 ≤ x ∧ x < INT_MAX) :
    Faces nV [] = none ∧
      ∀ t, Faces nV coordIndex = some t →
        (INT_MIN ≤ getNumberOfVertices t ∧ getNumberOfVertices t ≤ INT_MAX) ∧
        (∀ m, LargestIndex coordIndex m → getNumberOfVertices t = max nV (1 + m)) ∧
        nV ≤ getNumberOfVertices t ∧
        (∀ x ∈ coordIndex, 1 + x ≤ getNumberOfVertices t) ∧
        ((∀ x ∈ coordIndex, x = -1) → 0 ≤ nV → getNumberOfVertices t = nV) := by
  constructor
  · unfold Faces
    rw [countScan_full]
    simp only [seedFirstCorner, firstCornerScan_nil]
  intro t hbuilt
  have hb := built_of_Faces nV coordIndex t hsize hbuilt
  clear hsize
  have hnv := hb.nVertices_eq
  have hstart := scanMax_ge_start coordIndex (-1)
  have htop : scanMax coordIndex (-1) < INT_MAX := by
    rcases scanMax_start_or_mem coordIndex (-1) with h | ⟨h, _⟩
    · rw [h]; decide
    · exact (hvals _ h).2
  unfold INT_MAX at htop hnV
  unfold INT_MIN at hnV
  unfold getNumberOfVertices INT_MAX INT_MIN
  refine ⟨?_, ?_, ?_, ?_, ?_⟩
  · rw [hnv]; split <;> omega
  · rintro m ⟨hm, hne, hle⟩
    have h1 := scanMax_ge_mem coordIndex (-1) m hm hne
    have h2 : scanMax coordIndex (-1) = m := by
      rcases scanMax_start_or_mem coordIndex (-1) with h | ⟨h, _⟩
      · have := (hvals m hm).1
        omega
      · have := hle _ h
        omega
    rw [hnv, h2]
    split <;> omega
  · rw [hnv]; split <;> omega
  · intro x hx
    rw [hnv]
    by_cases hx1 : x = -1
    · split <;> omega
    · have := scanMax_ge_mem coordIndex (-1) x hx hx1
      split <;> omega
  · intro hall h0
    have h2 : scanMax coordIndex (-1) = -1 := by
      rcases scanMax_start_or_mem coordIndex (-1) with h | ⟨h, hne⟩
      · exact h
      · exact absurd (hall _ h) hne
    rw [hnv, h2]
    split <;> omega

/-- C5, at scenario A: the largest vertex index is 3 and the vertex count 4. -/
theorem numberOfVertices_eq_max_witness :
    (INT_MIN ≤ getNumberOfVertices tableA ∧ getNumberOfVertices tableA ≤ INT_MAX) ∧
      (∀ m, LargestIndex [0, 1, 2, -1, 2, 3, 0, -1] m →
        getNumberOfVertices tableA = max 0 (1 + m)) ∧
      0 ≤ getNumberOfVertices tableA ∧
      (∀ x ∈ ([0, 1, 2, -1, 2, 3, 0, -1] : List Int), 1 + x ≤ getNumberOfVertices tableA) ∧
      ((∀ x ∈ ([0, 1, 2, -1, 2, 3, 0, -1] : List Int), x = -1) → (0 : Int) ≤ 0 →
        getNumberOfVertices tableA = 0) :=
  (numberOfVertices_eq_max 0 [0, 1, 2, -1, 2, 3, 0, -1] tableA_size (by decide)
    (by decide)).2 tableA tableA_built

/-- C6 (as stated, refuted): in the table of the sequence `-1 0 1 2 -1`, position
3 holds a vertex index and is followed by a sentinel, its run starts at position
1, and `getNextCorner(3)` is `0`; in the table of the sequence `0 -1 -1 1 -1`,
position 3 is followed by a sentinel, its run starts at position 3, and
`getNextCorner(3)` is `0`. -/
theorem nextCorner_spec_fails_after_leading_sentinel :
    Faces 0 [-1, 0, 1, 2, -1] = some tableB ∧ getNextCorner tableB 3 = some 0 ∧
      RunFirst [-1, 0, 1, 2, -1] 3 1 ∧ ¬ NextCornerSpec tableB [-1, 0, 1, 2, -1] 3 ∧
      Faces 0 [0, -1, -1, 1, -1] = some tableDoubled ∧
      getNextCorner tableDoubled 3 = some 0 ∧ RunFirst [0, -1, -1, 1, -1] 3 3 ∧
      ¬ NextCornerSpec tableDoubled [0, -1, -1, 1, -1] 3 := by
  refine ⟨tableB_built, by decide, ⟨by decide, ?_, by decide⟩, ?_, by decide, by decide,
    ⟨by decide, ?_, by decide⟩, ?_⟩
  · intro q h1 h2
    interval_cases q <;> decide
  · intro h
    obtain ⟨p, hp, hnext⟩ := (h.2 (by decide) (by decide) (by decide)).2 (by decide)
    have e : getNextCorner tableB 3 = some 0 := by decide
    rw [e] at hnext
    have hp0 : p = 0 := by
      have := Option.some.inj hnext
      omega
    subst hp0
    have hc := hp.2.1 0 (Nat.le_refl 0) (Nat.zero_le _)
    revert hc
    decide
  · intro q h1 h2
    have hq : q = 3 := by omega
    subst hq
    decide
  · intro h
    obtain ⟨p, hp, hnext⟩ := (h.2 (by decide) (by decide) (by decide)).2 (by decide)
    have e : getNextCorner tableDoubled 3 = some 0 := by decide
    rw [e] at hnext
    have hp0 : p = 0 := by
      have := Option.some.inj hnext
      omega
    subst hp0
    have hc := hp.2.1 1 (by decide) (by decide)
    revert hc
    decide

/-- C6 (amended): on every constructed table `getNextCorner(c)` is `-1` when `c`
is outside `[0, getNumberOfCorners())` or holds the sentinel; otherwise it is
`c + 1` when that position is inside the sequence and holds no sentinel; and
otherwise, when the sequence does not start with the sentinel and has no two
adjacent sentinels, it is the first position of the maximal run of non-sentinel
positions that contains `c`. -/
theorem nextCorner_spec_of_wellFormed (nV : Int) (coordIndex : List Int) (t : FacesState)
    (hsize : coordIndex.length < 2 ^ 64) (hbuilt : Faces nV coordIndex = some t) (c : Int) :
    ((c < 0 ∨ getNumberOfCorners t ≤ c ∨ sentinelAt coordIndex c.toNat) →
        getNextCorner t c = some (-1)) ∧
      (0 ≤ c → c < getNumberOfCorners t → ¬ sentinelAt coordIndex c.toNat →
        (cornerAt coordIndex (c.toNat + 1) → getNextCorner t c = some (c + 1)) ∧
        (¬ cornerAt coordIndex (c.toNat + 1) → WellFormed coordIndex →
          ∃ p : Nat, RunFirst coordIndex c.toNat p ∧ getNextCorner t c = some (p : Int))) := by
  have hb := built_of_Faces nV coordIndex t hsize hbuilt
  clear hsize
  have hlen : getNumberOfCorners t = (coordIndex.length : Int) := by
    unfold getNumberOfCorners
    rw [hb.coordIndex_eq]
  refine ⟨fun h => hb.getNextCorner_out c (by rw [hlen] at h; exact h), ?_⟩
  intro h0 hlt hns
  refine ⟨fun hin => ?_, fun hnin hwf => ((hb.nextCornerSpec hwf c).2 h0 hlt hns).2 hnin⟩
  obtain ⟨m, rfl⟩ := Int.eq_ofNat_of_zero_le h0
  rw [Int.toNat_ofNat] at hns hin
  rw [hlen] at hlt
  have hc : cornerAt coordIndex m := ⟨by omega, hns⟩
  rw [hb.getNextCorner_corner m hc, if_pos hin]

/-- C6 (amended), at scenario A: position `-1` is outside the sequence, position
4 is followed by a corner, and position 6 is the last corner of face 1. -/
theorem nextCorner_spec_of_wellFormed_witness :
    getNextCorner tableA (-1) = some (-1) ∧ getNextCorner tableA 4 = some (4 + 1) ∧
      ∃ p : Nat, RunFirst [0, 1, 2, -1, 2, 3, 0, -1] (6 : Int).toNat p ∧
        getNextCorner tableA 6 = some (p : Int) :=
  ⟨(nextCorner_spec_of_wellFormed 0 [0, 1, 2, -1, 2, 3, 0, -1] tableA tableA_size tableA_built
      (-1)).1 (Or.inl (by decide)),
    ((nextCorner_spec_of_wellFormed 0 [0, 1, 2, -1, 2, 3, 0, -1] tableA tableA_size tableA_built
      4).2 (by decide) (by decide) (by decide)).1 (by decide),
    ((nextCorner_spec_of_wellFormed 0 [0, 1, 2, -1, 2, 3, 0, -1] tableA tableA_size tableA_built
      6).2 (by decide) (by decide) (by decide)).2 (by decide) wellFormed_scenarioA⟩

/-- C7: on a constructed table `getCornerFace(c)` is `-1` when `c` is outside
`[0, getNumberOfCorners())` or position `c` holds the sentinel, and otherwise
the number of sentinels at positions strictly before `c`. -/
theorem cornerFace_eq_sentinels_before (nV : Int) (coordIndex : List Int) (t : FacesState)
    (hsize : coordIndex.length < 2 ^ 64) (hbuilt : Faces nV coordIndex = some t) (c : Int) :
    ((c < 0 ∨ getNumberOfCorners t ≤ c ∨ sentinelAt coordIndex c.toNat) →
        getCornerFace t c = some (-1)) ∧
      (0 ≤ c → c < getNumberOfCorners t → ¬ sentinelAt coordIndex c.toNat →
        getCornerFace t c = some (sentinelsBefore coordIndex c.toNat : Int)) := by
  have hb := built_of_Faces nV coordIndex t hsize hbuilt
  clear hsize
  unfold getNumberOfCorners
  rw [hb.coordIndex_eq]
  by_cases hout : c < 0 ∨ (coordIndex.length : Int) ≤ c
  · exact ⟨fun _ => hb.getCornerFace_out c hout, fun h0 h1 _ => by omega⟩
  · have h0 : 0 ≤ c := by omega
    obtain ⟨m, rfl⟩ := Int.eq_ofNat_of_zero_le h0
    have hm : m < coordIndex.length := by omega
    have := hb.getCornerFace_eq m hm
    rw [Int.toNat_ofNat]
    constructor
    · intro h
      have hs : sentinelAt coordIndex m := by
        rcases h with h | h | h
        · omega
        · omega
        · exact h
      rw [this, if_pos hs]
    · intro _ _ hns
      rw [this, if_neg hns]

/-- C7, at scenario A: corner 5 lies after one sentinel. -/
theorem cornerFace_eq_sentinels_before_witness :
    (((5 : Int) < 0 ∨ getNumberOfCorners tableA ≤ 5 ∨
          sentinelAt [0, 1, 2, -1, 2, 3, 0, -1] (5 : Int).toNat) →
        getCornerFace tableA 5 = some (-1)) ∧
      ((0 : Int) ≤ 5 → 5 < getNumberOfCorners tableA →
        ¬ sentinelAt [0, 1, 2, -1, 2, 3, 0, -1] (5 : Int).toNat →
        getCornerFace tableA 5 =
          some (sentinelsBefore [0, 1, 2, -1, 2, 3, 0, -1] (5 : Int).toNat : Int)) :=
  cornerFace_eq_sentinels_before 0 [0, 1, 2, -1, 2, 3, 0, -1] tableA tableA_size
    tableA_built 5

/-- C8: on a constructed table `getFaceFirstCorner(f)` is `-1` for every `f`
outside `[0, getNumberOfFaces())`; for every face id `k` in range such that the
sequence has more than `k` run starts it is the `k`-th run start in left-to-right
order (a run start with exactly `k` run starts before it); so the first corners
of these face ids are strictly increasing. -/
theorem faceFirstCorner_run_starts (nV : Int) (coordIndex : List Int) (t : FacesState)
    (hsize : coordIndex.length < 2 ^ 64) (hbuilt : Faces nV coordIndex = some t) :
    (∀ f : Int, (f < 0 ∨ getNumberOfFaces t ≤ f) → getFaceFirstCorner t f = some (-1)) ∧
      (∀ k : Nat, (k : Int) < getNumberOfFaces t →
        k < runStartsBefore coordIndex coordIndex.length →
        ∃ p : Nat, getFaceFirstCorner t k = some (p : Int) ∧ runStart coordIndex p ∧
          runStartsBefore coordIndex p = k) ∧
      (∀ k k' : Nat, k < k' → (k' : Int) < getNumberOfFaces t →
        k' < runStartsBefore coordIndex coordIndex.length →
        ∃ p p' : Nat, getFaceFirstCorner t k = some (p : Int) ∧
          getFaceFirstCorner t k' = some (p' : Int) ∧ p < p') := by
  have hb := built_of_Faces nV coordIndex t hsize hbuilt
  clear hsize
  unfold getNumberOfFaces
  have key : ∀ k : Nat, (k : Int) < t.nFaces →
      k < runStartsBefore coordIndex coordIndex.length →
      ∃ p : Nat, getFaceFirstCorner t k = some (p : Int) ∧ runStart coordIndex p ∧
        runStartsBefore coordIndex p = k := by
    intro k hk hR
    obtain ⟨p, hp, _, hrun, _⟩ := hb.face_lookup k (by omega) hk
    rw [Int.toNat_ofNat] at hrun
    obtain ⟨h1, h2⟩ := hrun hR
    exact ⟨p, by rw [hb.getFaceFirstCorner_in k (by omega) hk]; exact hp, h1, h2⟩
  refine ⟨fun f hf => hb.getFaceFirstCorner_out f hf, key, ?_⟩
  intro k k' hkk hk' hR'
  obtain ⟨p, hp, _, hc⟩ := key k (by omega) (by omega)
  obtain ⟨p', hp', _, hc'⟩ := key k' hk' hR'
  refine ⟨p, p', hp, hp', ?_⟩
  by_contra hle
  have := runStartsBefore_mono coordIndex (Nat.le_of_not_lt hle)
  omega

/-- C8, at scenario A: faces 0 and 1 start at the run starts 0 and 4. -/
theorem faceFirstCorner_run_starts_witness :
    (∀ f : Int, (f < 0 ∨ getNumberOfFaces tableA ≤ f) →
        getFaceFirstCorner tableA f = some (-1)) ∧
      (∀ k : Nat, (k : Int) < getNumberOfFaces tableA →
        k < runStartsBefore [0, 1, 2, -1, 2, 3, 0, -1]
          ([0, 1, 2, -1, 2, 3, 0, -1] : List Int).length →
        ∃ p : Nat, getFaceFirstCorner tableA k = some (p : Int) ∧
          runStart [0, 1, 2, -1, 2, 3, 0, -1] p ∧
          runStartsBefore [0, 1, 2, -1, 2, 3, 0, -1] p = k) ∧
      (∀ k k' : Nat, k < k' → (k' : Int) < getNumberOfFaces tableA →
        k' < runStartsBefore [0, 1, 2, -1, 2, 3, 0, -1]
          ([0, 1, 2, -1, 2, 3, 0, -1] : List Int).length →
        ∃ p p' : Nat, getFaceFirstCorner tableA k = some (p : Int) ∧
          getFaceFirstCorner tableA k' = some (p' : Int) ∧ p < p') :=
  faceFirstCorner_run_starts 0 [0, 1, 2, -1, 2, 3, 0, -1] tableA tableA_size tableA_built

/-- C9: on a constructed table `getFaceSize(f)` is `0` for every `f` outside
`[0, getNumberOfFaces())`; for `f` in range it is the length of the longest block
of consecutive non-sentinel positions that starts at `getFaceFirstCorner(f)`:
`0` if that position holds a sentinel, every position of the block holds a
vertex index, the block stops at a sentinel or at the end of the sequence, and
`getFaceFirstCorner(f) + getFaceSize(f) <= getNumberOfCorners()`. -/
theorem faceSize_eq_run_length (nV : Int) (coordIndex : List Int) (t : FacesState)
    (hsize : coordIndex.length < 2 ^ 64) (hbuilt : Faces nV coordIndex = some t) :
    (∀ f : Int, (f < 0 ∨ getNumberOfFaces t ≤ f) → getFaceSize t f = some 0) ∧
      (∀ f : Int, 0 ≤ f → f < getNumberOfFaces t →
        ∃ first : Nat, getFaceFirstCorner t f = some (first : Int) ∧
          getFaceSize t f = some (runLength coordIndex first : Int) ∧
          (sentinelAt coordIndex first → runLength coordIndex first = 0) ∧
          (∀ q, first ≤ q → q < first + runLength coordIndex first → cornerAt coordIndex q) ∧
          (first + runLength coordIndex first = coordIndex.length ∨
            sentinelAt coordIndex (first + runLength coordIndex first)) ∧
          (first : Int) + (runLength coordIndex first : Int) ≤ getNumberOfCorners t) := by
  have hb := built_of_Faces nV coordIndex t hsize hbuilt
  clear hsize
  unfold getNumberOfFaces getNumberOfCorners
  refine ⟨fun f hf => hb.getFaceSize_out f hf, ?_⟩
  intro f h0 h1
  obtain ⟨p, hp, hpl, _, _⟩ := hb.face_lookup f h0 h1
  have hle := runLength_le coordIndex p
  have hmax : max p coordIndex.length = coordIndex.length := by omega
  rw [hmax] at hle
  refine ⟨p, by rw [hb.getFaceFirstCorner_in f h0 h1]; exact hp,
    hb.getFaceSize_in f h0 h1 p hp, ?_, fun q h1 h2 => runLength_corner coordIndex p q h1 h2,
    ?_, ?_⟩
  · intro hs
    by_contra hne
    exact (runLength_corner coordIndex p p (Nat.le_refl p) (by omega)).2 hs
  · rcases runLength_stop coordIndex p with h | h
    · left; omega
    · right; exact h
  · rw [hb.coordIndex_eq]; omega

/-- C9, at scenario A. -/
theorem faceSize_eq_run_length_witness :
    (∀ f : Int, (f < 0 ∨ getNumberOfFaces tableA ≤ f) → getFaceSize tableA f = some 0) ∧
      (∀ f : Int, 0 ≤ f → f < getNumberOfFaces tableA →
        ∃ first : Nat, getFaceFirstCorner tableA f = some (first : Int) ∧
          getFaceSize tableA f = some (runLength [0, 1, 2, -1, 2, 3, 0, -1] first : Int) ∧
          (sentinelAt [0, 1, 2, -1, 2, 3, 0, -1] first →
            runLength [0, 1, 2, -1, 2, 3, 0, -1] first = 0) ∧
          (∀ q, first ≤ q → q < first + runLength [0, 1, 2, -1, 2, 3, 0, -1] first →
            cornerAt [0, 1, 2, -1, 2, 3, 0, -1] q) ∧
          (first + runLength [0, 1, 2, -1, 2, 3, 0, -1] first =
              ([0, 1, 2, -1, 2, 3, 0, -1] : List Int).length ∨
            sentinelAt [0, 1, 2, -1, 2, 3, 0, -1]
              (first + runLength [0, 1, 2, -1, 2, 3, 0, -1] first)) ∧
          (first : Int) + (runLength [0, 1, 2, -1, 2, 3, 0, -1] first : Int) ≤
            getNumberOfCorners tableA) :=
  faceSize_eq_run_length 0 [0, 1, 2, -1, 2, 3, 0, -1] tableA tableA_size tableA_built

/-- C10: on a constructed table, for a face id `f` in range and `0 <= j <
getFaceSize(f)`, the index `getFaceFirstCorner(f) + j` is inside the sequence, no
position from `getFaceFirstCorner(f)` to `getFaceFirstCorner(f) + j` holds a
sentinel, and `getFaceVertex(f, j)` is the sequence value at that index. -/
theorem faceVertex_reads_inside_face (nV : Int) (coordIndex : List Int) (t : FacesState)
    (hsize : coordIndex.length < 2 ^ 64) (hbuilt : Faces nV coordIndex = some t)
    (f j size : Int) (hf0 : 0 ≤ f) (hf1 : f < getNumberOfFaces t)
    (hs : getFaceSize t f = some size) (hj0 : 0 ≤ j) (hj1 : j < size) :
    ∃ (first : Nat) (v : Int), getFaceFirstCorner t f = some (first : Int) ∧
      first + j.toNat < coordIndex.length ∧
      (∀ q, first ≤ q → q ≤ first + j.toNat → ¬ sentinelAt coordIndex q) ∧
      coordIndex[first + j.toNat]? = some v ∧ getFaceVertex t f j = some v := by
  have hb := built_of_Faces nV coordIndex t hsize hbuilt
  clear hsize
  unfold getNumberOfFaces at hf1
  obtain ⟨p, hp, hpl, _, _⟩ := hb.face_lookup f hf0 hf1
  have hsz := hb.getFaceSize_in f hf0 hf1 p hp
  rw [hs] at hsz
  have hsz' : size = (runLength coordIndex p : Int) := Option.some.inj hsz
  have hv := hb.getFaceVertex_in f j hf0 hf1 p hp
  rw [if_neg (by omega)] at hv
  have hc := runLength_corner coordIndex p (p + j.toNat) (by omega) (by omega)
  refine ⟨p, _, ?_, hc.1, ?_, List.getElem?_eq_getElem hc.1, ?_⟩
  · rw [hb.getFaceFirstCorner_in f hf0 hf1]; exact hp
  · intro q h1 h2
    exact (runLength_corner coordIndex p q h1 (by omega)).2
  · rw [hv]; exact List.getElem?_eq_getElem hc.1

/-- C10, at scenario A: `getFaceVertex(1, 2)` reads position `4 + 2`. -/
theorem faceVertex_reads_inside_face_witness :
    ∃ (first : Nat) (v : Int), getFaceFirstCorner tableA 1 = some (first : Int) ∧
      first + (2 : Int).toNat < ([0, 1, 2, -1, 2, 3, 0, -1] : List Int).length ∧
      (∀ q, first ≤ q → q ≤ first + (2 : Int).toNat →
        ¬ sentinelAt [0, 1, 2, -1, 2, 3, 0, -1] q) ∧
      ([0, 1, 2, -1, 2, 3, 0, -1] : List Int)[first + (2 : Int).toNat]? = some v ∧
      getFaceVertex tableA 1 2 = some v :=
  faceVertex_reads_inside_face 0 [0, 1, 2, -1, 2, 3, 0, -1] tableA tableA_size tableA_built
    1 2 3 (by decide) (by decide) (by decide) (by decide) (by decide)


/-! ## Completion of the constructor -/

theorem firstCornerScan_succeeds (ci : List Int) :
    ∀ (n i : Nat) (ffc : List Int) (k : Nat), i + n < ci.length →
      FirstInv ci (i + 1) ffc k → runStartsBefore ci (i + 1 + n) ≤ ffc.length →
      ∃ r, firstCornerScan ci n i ffc k = some r := by
  intro n
  induction n with
  | zero => intro i ffc k _ _ _; exact ⟨_, rfl⟩
  | succ n ih =>
    intro i ffc k hlen hinv hR
    have hshift : i + 1 + (n + 1) = (i + 1) + 1 + n := by omega
    rw [hshift] at hR
    have ha : ci[i]? = some ci[i] := List.getElem?_eq_getElem (by omega)
    have hb : ci[i + 1]? = some ci[i + 1] := List.getElem?_eq_getElem (by omega)
    by_cases h1 : ci[i] = -1
    · by_cases h2 : ci[i + 1] = -1
      · have hns : ¬ runStart ci (i + 1) := by
          simp [runStart, cornerAt, sentinelAt, hb, h2]
        obtain ⟨r, hr⟩ := ih (i + 1) ffc k (by omega) (hinv.skip hns) hR
        refine ⟨r, ?_⟩
        simp only [firstCornerScan, ha, h1, hb, h2, if_true, ne_eq, not_true_eq_false,
          if_false]
        exact hr
      · have hrs : runStart ci (i + 1) := by
          have hlt : i + 1 < ci.length := by omega
          simp [runStart, cornerAt, sentinelAt, hb, h2, ha, h1, hlt]
        have hmono := runStartsBefore_mono ci (show i + 1 + 1 ≤ i + 1 + 1 + n by omega)
        rw [runStartsBefore_succ, if_pos hrs, ← hinv.1] at hmono
        have hk : k < ffc.length := by omega
        have hrec := hinv.record hrs hk
        obtain ⟨r, hr⟩ := ih (i + 1) (ffc.set k ((i : Int) + 1)) (k + 1) (by omega)
          (by simpa using hrec) (by simpa using hR)
        refine ⟨r, ?_⟩
        simp only [firstCornerScan, ha, h1, hb, h2, if_true, ne_eq, not_false_eq_true,
          writeAt, hk]
        exact hr
    · have hns : ¬ runStart ci (i + 1) := by
        simp [runStart, sentinelAt, ha, h1]
      obtain ⟨r, hr⟩ := ih (i + 1) ffc k (by omega) (hinv.skip hns) hR
      refine ⟨r, ?_⟩
      simp only [firstCornerScan, ha, h1, if_false]
      exact hr

theorem seedFirstCorner_succeeds (ci : List Int) (n : Nat)
    (hR : runStartsBefore ci 1 ≤ n) :
    ∃ r, seedFirstCorner ci (List.replicate n 0) = some r := by
  cases ci with
  | nil => exact ⟨_, rfl⟩
  | cons v l =>
    by_cases hv : v = -1
    · exact ⟨(List.replicate n 0, 0), by simp [seedFirstCorner, hv]⟩
    · have hrs : runStart (v :: l) 0 := by simp [runStart, cornerAt, sentinelAt, hv]
      rw [runStartsBefore_succ, if_pos hrs] at hR
      have h0 : 0 < n := by omega
      exact ⟨((List.replicate n 0).set 0 0, 1), by simp [seedFirstCorner, hv, writeAt, h0]⟩

/-- The constructor completes on every non-empty sequence that has no more run
starts than sentinels. -/
theorem Faces_succeeds (nV : Int) (ci : List Int) (hne : ci ≠ [])
    (hsize : ci.length < 2 ^ 64)
    (hR : runStartsBefore ci ci.length ≤ ci.count (-1)) : ∃ t, Faces nV ci = some t := by
  have hpos : 0 < ci.length := List.length_pos.mpr hne
  have hbound := sizeMinusOne_pos _ hpos hsize
  clear hsize
  obtain ⟨c2f, hc, _, _⟩ := cornerScan_full ci
  obtain ⟨⟨ffc0, k0⟩, hs⟩ := seedFirstCorner_succeeds ci (ci.count (-1))
    (Nat.le_trans (runStartsBefore_mono ci (by omega)) hR)
  obtain ⟨hl0, hinv0⟩ := seedFirstCorner_spec ci _ ffc0 k0
    (fun j hj => by rw [List.getElem?_replicate_of_lt (by simpa using hj)]) hs
  obtain ⟨⟨ffc, k⟩, hf⟩ := firstCornerScan_succeeds ci (ci.length - 1) 0 ffc0 k0 (by omega)
    hinv0 (by
      have h1 : 0 + 1 + (ci.length - 1) = ci.length := by omega
      rw [h1, hl0]; simpa using hR)
  refine ⟨{ coordIndex := ci,
             nVertices := if scanMax ci (-1) + 1 > nV then scanMax ci (-1) + 1 else nV,
             nFaces := (ci.count (-1) : Int), faceFirstCorner := ffc, cornerToFace := c2f }, ?_⟩
  unfold Faces
  rw [countScan_full]
  simp only [Int.toNat_ofNat, hs, hbound, hf, hc]

/-- A terminated sequence has as many run starts as sentinels. -/
theorem Terminated.balanced {ci : List Int} (h : Terminated ci) :
    runStartsBefore ci ci.length = ci.count (-1) := by
  obtain ⟨hne, hwf, hlast⟩ := h
  have hpos : 0 < ci.length := List.length_pos.mpr hne
  have hbal := hwf.balance (ci.length - 1) (by omega)
  have hlen : ci.length - 1 + 1 = ci.length := by omega
  rw [hlen, sentinelsBefore_length, if_pos hlast] at hbal
  omega

theorem Terminated.built {ci : List Int} (h : Terminated ci) (nV : Int)
    (hsize : ci.length < 2 ^ 64) : ∃ t, Faces nV ci = some t ∧ Built nV ci t := by
  obtain ⟨t, ht⟩ := Faces_succeeds nV ci h.1 hsize (Nat.le_of_eq h.balanced)
  exact ⟨t, ht, built_of_Faces nV ci t hsize ht⟩

theorem Faces_no_sentinel (nV : Int) (v : Int) (l : List Int) (hv : v ≠ -1)
    (hl : (v :: l).count (-1) = 0) : Faces nV (v :: l) = none := by
  unfold Faces
  rw [countScan_full, hl]
  simp [seedFirstCorner, hv, writeAt]

theorem Faces_nil (nV : Int) : Faces nV [] = none := by
  unfold Faces
  rw [countScan_full]
  simp only [seedFirstCorner, firstCornerScan_nil]


/-! ## Corners and faces of a terminated sequence -/

theorem runLength_gt (ci : List Int) (p0 p : Nat) (_h0 : p0 ≤ p)
    (hall : ∀ q, p0 ≤ q → q ≤ p → cornerAt ci q) : p < p0 + runLength ci p0 := by
  by_contra hle
  have hin := hall (p0 + runLength ci p0) (by omega) (by omega)
  rcases runLength_stop ci p0 with h | h
  · have := hin.1; omega
  · exact hin.2 h

/-- On a constructed table of a well-formed sequence, the face recorded for a
corner `p` is the run of `p`: its id is in range and its first corner is the
first position of that run. -/
theorem Built.corner_face {nV : Int} {ci : List Int} {t : FacesState} (hb : Built nV ci t)
    (hwf : WellFormed ci) (p : Nat) (hc : cornerAt ci p) :
    ∃ p0 : Nat, RunFirst ci p p0 ∧ (sentinelsBefore ci p : Int) < t.nFaces ∧
      readAt t.faceFirstCorner (sentinelsBefore ci p : Int) = some (p0 : Int) := by
  obtain ⟨p0, hp0⟩ := runFirst_exists ci p hc
  refine ⟨p0, hp0, ?_⟩
  obtain ⟨_, hR⟩ := hb.terminated hwf
  have hrs := hp0.runStart
  have hsame : sentinelsBefore ci p = sentinelsBefore ci p0 :=
    sentinelsBefore_const ci p0 p hp0.1 (by have := hc.1; omega)
      (fun q h1 h2 => (hp0.2.1 q h1 (by omega)).2)
  have hsb := hwf.sentinelsBefore_runStart p0 hrs
  have hmono := runStartsBefore_mono ci (show p0 + 1 ≤ ci.length by have := hrs.1.1; omega)
  rw [runStartsBefore_succ, if_pos hrs] at hmono
  have hlt2 : (sentinelsBefore ci p : Int) < t.nFaces := by
    rw [hb.nFaces_eq]; omega
  obtain ⟨p2, hp2, _, hrun, _⟩ := hb.face_lookup (sentinelsBefore ci p : Int) (by omega) hlt2
  rw [Int.toNat_ofNat] at hrun
  obtain ⟨hrs2, hcnt2⟩ := hrun (by omega)
  have hpp : p2 = p0 := runStart_unique ci p2 p0 hrs2 hrs (by omega)
  exact ⟨hlt2, by rw [hp2, hpp]⟩

theorem mod_of_lt_two_mul (a n : Nat) (h : a < 2 * n) :
    a % n = if a < n then a else a - n := by
  by_cases h1 : a < n
  · rw [if_pos h1, Nat.mod_eq_of_lt h1]
  · rw [if_neg h1, Nat.mod_eq_sub_mod (by omega), Nat.mod_eq_of_lt (by omega)]

/-- On a constructed table of a well-formed sequence, `getNextCorner` moves
from the `k`-th corner of a face to the corner `(k + 1) mod size` of that face. -/
theorem Built.next_in_face {nV : Int} {ci : List Int} {t : FacesState} (hb : Built nV ci t)
    (hwf : WellFormed ci) (f : Int) (h0 : 0 ≤ f) (h1 : f < t.nFaces) (p : Nat)
    (hp : readAt t.faceFirstCorner f = some (p : Int)) (k : Nat) (hk : k < runLength ci p) :
    getNextCorner t ((p + k : Nat) : Int) =
      some ((p + (k + 1) % runLength ci p : Nat) : Int) := by
  obtain ⟨p2, hp2, hrs, hsb, hlen, hstop⟩ := hb.face_run hwf f h0 h1
  have hpp : p2 = p := by
    rw [hp] at hp2
    have := Option.some.inj hp2
    omega
  subst hpp
  have hc := runLength_corner ci p2 (p2 + k) (by omega) (by omega)
  rw [hb.getNextCorner_corner (p2 + k) hc, mod_of_lt_two_mul (k + 1) _ (by omega)]
  by_cases hin : k + 1 < runLength ci p2
  · rw [if_pos (runLength_corner ci p2 (p2 + k + 1) (by omega) (by omega)), if_pos hin]
    congr 1
  · have hnext : ¬ cornerAt ci (p2 + k + 1) := by
      intro hc2
      apply hc2.2
      have : p2 + k + 1 = p2 + runLength ci p2 := by omega
      rw [this]; exact hstop
    have hsame : sentinelsBefore ci (p2 + k) = sentinelsBefore ci p2 :=
      sentinelsBefore_const ci p2 (p2 + k) (by omega) (by have := hc.1; omega)
        (fun q hq1 hq2 => (runLength_corner ci p2 q hq1 (by omega)).2)
    rw [if_neg hnext, hsame, hsb, if_pos h1, hp, if_neg hin]
    congr 2
    omega

theorem Built.iterNext_in_face {nV : Int} {ci : List Int} {t : FacesState}
    (hb : Built nV ci t) (hwf : WellFormed ci) (f : Int) (h0 : 0 ≤ f) (h1 : f < t.nFaces)
    (p : Nat) (hp : readAt t.faceFirstCorner f = some (p : Int)) (k : Nat)
    (hk : k < runLength ci p) :
    ∀ j, iterNext t j ((p + k : Nat) : Int) =
      some ((p + (k + j) % runLength ci p : Nat) : Int) := by
  intro j
  induction j with
  | zero => rw [Nat.add_zero, Nat.mod_eq_of_lt hk]; rfl
  | succ j ih =>
    rw [iterNext_succ, ih, Option.some_bind,
      hb.next_in_face hwf f h0 h1 p hp _ (Nat.mod_lt _ (by omega)), Nat.mod_add_mod]
    rfl


theorem terminated_scenarioA : Terminated [0, 1, 2, -1, 2, 3, 0, -1] :=
  ⟨by decide, wellFormed_scenarioA, by decide⟩

/-! ## Claims on single sequences and on terminated sequences -/

/-- C11 (the code does not meet it): on a non-empty sequence without sentinel the
counting loop leaves `nFaces = 0`, `faceFirstCorner` has size 0, and the seed of
face 0 writes `faceFirstCorner[0]` outside it: the constructor does not complete,
so there is no table with one face. -/
theorem sentinel_free_sequence_faults (nV : Int) (coordIndex : List Int)
    (hne : coordIndex ≠ []) (hfree : ∀ x ∈ coordIndex, x ≠ -1) :
    (∃ m, countScan coordIndex coordIndex.length 0 0 (-1) = some (0, m)) ∧
      seedFirstCorner coordIndex (List.replicate 0 0) = none ∧
      Faces nV coordIndex = none := by
  have hcount : coordIndex.count (-1) = 0 :=
    List.count_eq_zero.mpr (fun h => hfree _ h rfl)
  cases coordIndex with
  | nil => exact absurd rfl hne
  | cons v l =>
    have hv : v ≠ -1 := hfree v (List.mem_cons_self _ _)
    refine ⟨⟨_, by rw [countScan_full, hcount]; rfl⟩, ?_, Faces_no_sentinel nV v l hv hcount⟩
    simp [seedFirstCorner, hv, writeAt]

/-- C11, at the sequence `0 1 2` with declared count 0. -/
theorem sentinel_free_sequence_faults_witness :
    (∃ m, countScan [0, 1, 2] ([0, 1, 2] : List Int).length 0 0 (-1) = some (0, m)) ∧
      seedFirstCorner [0, 1, 2] (List.replicate 0 0) = none ∧
      Faces 0 [0, 1, 2] = none :=
  sentinel_free_sequence_faults 0 [0, 1, 2] (by decide) (by decide)

/-- C12 (the code does not meet it): on the empty sequence the bound
`coordIndex.size() - 1` of the pair scan is `2^64 - 1`, not `0`; the scan runs,
its first iteration reads `coordIndex[0]` outside the vector, and the constructor
does not complete for any declared count. -/
theorem empty_sequence_pair_scan_runs :
    sizeMinusOne ([] : List Int).length = 2 ^ 64 - 1 ∧
      (∀ (n : Nat) (ffc : List Int) (k : Nat), firstCornerScan [] (n + 1) 0 ffc k = none) ∧
      (∀ nV : Int, Faces nV [] = none) :=
  ⟨sizeMinusOne_zero, firstCornerScan_nil_succ, Faces_nil⟩

/-- C13: scenario A, declared count 0 and sequence `0 1 2 -1 2 3 0 -1`: two
faces, both of size 3, `getFaceVertex(1,2) = 0`, `getNextCorner(6) = 4` and 4
vertices. -/
theorem scenarioA_values :
    ∃ t, Faces 0 [0, 1, 2, -1, 2, 3, 0, -1] = some t ∧ getNumberOfFaces t = 2 ∧
      getFaceSize t 0 = some 3 ∧ getFaceSize t 1 = some 3 ∧
      getFaceVertex t 1 2 = some 0 ∧ getNextCorner t 6 = some 4 ∧
      getNumberOfVertices t = 4 :=
  ⟨tableA, by decide, by decide, by decide, by decide, by decide, by decide, by decide⟩

/-- C14 (as stated, refuted): in the table of `-1 0 1 2 -1` face 0 has size 3,
not 0, and face 1 has `getFaceFirstCorner(1) = 0`. -/
theorem scenarioB_face0_holds_the_run :
    Faces 0 [-1, 0, 1, 2, -1] = some tableB ∧ getFaceSize tableB 0 ≠ some 0 ∧
      ¬ (∀ f : Int, 0 ≤ f → f < 2 → getFaceFirstCorner tableB f ≠ some 0) := by
  refine ⟨tableB_built, by decide, ?_⟩
  intro h
  exact h 1 (by decide) (by decide) (by decide)

/-- C14 (amended): scenario B, sequence `-1 0 1 2 -1`: two faces; exactly one has
size 3, face 0, whose first corner is position 1; face 1 has size 0 and its
first corner is the `0` left by `resize`, a position that holds the sentinel. -/
theorem scenarioB_values :
    ∃ t, Faces 0 [-1, 0, 1, 2, -1] = some t ∧ getNumberOfFaces t = 2 ∧
      getFaceSize t 0 = some 3 ∧ getFaceFirstCorner t 0 = some 1 ∧
      getFaceSize t 1 = some 0 ∧ getFaceFirstCorner t 1 = some 0 ∧
      sentinelAt [-1, 0, 1, 2, -1] 0 :=
  ⟨tableB, by decide, by decide, by decide, by decide, by decide, by decide, by decide⟩

/-- C18: on a terminated sequence the constructor completes, and for every
position `p` that holds a vertex index, `f = getCornerFace(p)` is a face id in
range with `getFaceFirstCorner(f) <= p < getFaceFirstCorner(f) + getFaceSize(f)`;
and `getCornerFace(getFaceFirstCorner(f)) = f` for every face `f`. -/
theorem corner_face_consistent (nV : Int) (coordIndex : List Int)
    (hsize : coordIndex.length < 2 ^ 64) (hterm : Terminated coordIndex) :
    ∃ t, Faces nV coordIndex = some t ∧
      (∀ p, cornerAt coordIndex p →
        ∃ (f : Int) (first size : Nat), getCornerFace t (p : Int) = some f ∧ 0 ≤ f ∧
          f < getNumberOfFaces t ∧ getFaceFirstCorner t f = some (first : Int) ∧
          getFaceSize t f = some (size : Int) ∧ first ≤ p ∧ p < first + size) ∧
      (∀ f : Int, 0 ≤ f → f < getNumberOfFaces t →
        ∃ first : Nat, getFaceFirstCorner t f = some (first : Int) ∧
          getCornerFace t (first : Int) = some f) := by
  obtain ⟨t, ht, hb⟩ := hterm.built nV hsize
  clear hsize
  have hwf := hterm.2.1
  refine ⟨t, ht, ?_, ?_⟩
  · intro p hc
    obtain ⟨p0, hp0, hlt, hread⟩ := hb.corner_face hwf p hc
    have hf0 : (0 : Int) ≤ (sentinelsBefore coordIndex p : Int) := by omega
    refine ⟨(sentinelsBefore coordIndex p : Int), p0, runLength coordIndex p0, ?_, hf0, hlt,
      ?_, hb.getFaceSize_in _ hf0 hlt p0 hread, hp0.1, runLength_gt coordIndex p0 p hp0.1 hp0.2.1⟩
    · rw [hb.getCornerFace_eq p hc.1, if_neg hc.2]
    · rw [hb.getFaceFirstCorner_in _ hf0 hlt]; exact hread
  · intro f h0 h1
    obtain ⟨p, hp, hrs, hsb, _, _⟩ := hb.face_run hwf f h0 h1
    refine ⟨p, by rw [hb.getFaceFirstCorner_in f h0 h1]; exact hp, ?_⟩
    rw [hb.getCornerFace_eq p hrs.1.1, if_neg hrs.1.2, hsb]

/-- C18, at scenario A. -/
theorem corner_face_consistent_witness :
    ∃ t, Faces 0 [0, 1, 2, -1, 2, 3, 0, -1] = some t ∧
      (∀ p, cornerAt [0, 1, 2, -1, 2, 3, 0, -1] p →
        ∃ (f : Int) (first size : Nat), getCornerFace t (p : Int) = some f ∧ 0 ≤ f ∧
          f < getNumberOfFaces t ∧ getFaceFirstCorner t f = some (first : Int) ∧
          getFaceSize t f = some (size : Int) ∧ first ≤ p ∧ p < first + size) ∧
      (∀ f : Int, 0 ≤ f → f < getNumberOfFaces t →
        ∃ first : Nat, getFaceFirstCorner t f = some (first : Int) ∧
          getCornerFace t (first : Int) = some f) :=
  corner_face_consistent 0 [0, 1, 2, -1, 2, 3, 0, -1] tableA_size terminated_scenarioA


/-- C19: on a terminated sequence the constructor completes and, for every face
`f` and every `k` with `0 <= k < getFaceSize(f)`,
`getNextCorner(getFaceFirstCorner(f) + k) = getFaceFirstCorner(f) + ((k + 1) mod
getFaceSize(f))`.  Hence `j` applications from the `k`-th corner reach the corner
`(k + j) mod getFaceSize(f)`: `getFaceSize(f)` applications come back to the
start, every corner of the face is reached by fewer applications, and no corner
is reached twice before; and on every position that holds a vertex index
`getNextCorner` returns a position that holds a vertex index. -/
theorem next_corner_circular (nV : Int) (coordIndex : List Int)
    (hsize : coordIndex.length < 2 ^ 64) (hterm : Terminated coordIndex) :
    ∃ t, Faces nV coordIndex = some t ∧
      (∀ f : Int, 0 ≤ f → f < getNumberOfFaces t →
        ∃ first size : Nat, getFaceFirstCorner t f = some (first : Int) ∧
          getFaceSize t f = some (size : Int) ∧
          ∀ k, k < size →
            getNextCorner t ((first + k : Nat) : Int) =
              some ((first + (k + 1) % size : Nat) : Int) ∧
            (∀ j, iterNext t j ((first + k : Nat) : Int) =
              some ((first + (k + j) % size : Nat) : Int)) ∧
            iterNext t size ((first + k : Nat) : Int) = some ((first + k : Nat) : Int) ∧
            (∀ m, m < size → ∃ j, j < size ∧
              iterNext t j ((first + k : Nat) : Int) = some ((first + m : Nat) : Int)) ∧
            (∀ j1 j2, j1 < size → j2 < size →
              iterNext t j1 ((first + k : Nat) : Int) =
                iterNext t j2 ((first + k : Nat) : Int) → j1 = j2)) ∧
      (∀ p, cornerAt coordIndex p →
        ∃ q : Nat, getNextCorner t (p : Int) = some (q : Int) ∧ cornerAt coordIndex q) := by
  obtain ⟨t, ht, hb⟩ := hterm.built nV hsize
  clear hsize
  have hwf := hterm.2.1
  refine ⟨t, ht, ?_, ?_⟩
  · intro f h0 h1
    obtain ⟨p, hp, _, _, _, _⟩ := hb.face_run hwf f h0 h1
    refine ⟨p, runLength coordIndex p, by rw [hb.getFaceFirstCorner_in f h0 h1]; exact hp,
      hb.getFaceSize_in f h0 h1 p hp, ?_⟩
    intro k hk
    have hiter := hb.iterNext_in_face hwf f h0 h1 p hp k hk
    refine ⟨hb.next_in_face hwf f h0 h1 p hp k hk, hiter, ?_, ?_, ?_⟩
    · rw [hiter, mod_of_lt_two_mul _ _ (by omega), if_neg (by omega)]
      congr 2; omega
    · intro m hm
      by_cases hkm : k ≤ m
      · refine ⟨m - k, by omega, ?_⟩
        rw [hiter, mod_of_lt_two_mul _ _ (by omega), if_pos (by omega)]
        congr 2; omega
      · refine ⟨m + runLength coordIndex p - k, by omega, ?_⟩
        rw [hiter, mod_of_lt_two_mul _ _ (by omega), if_neg (by omega)]
        congr 2; omega
    · intro j1 j2 hj1 hj2 heq
      rw [hiter, hiter, mod_of_lt_two_mul _ _ (show k + j1 < 2 * runLength coordIndex p by omega),
        mod_of_lt_two_mul _ _ (show k + j2 < 2 * runLength coordIndex p by omega)] at heq
      have heq2 := Option.some.inj heq
      split at heq2 <;> split at heq2 <;> omega
  · intro p hc
    obtain ⟨p0, hp0, hlt, hread⟩ := hb.corner_face hwf p hc
    have hf0 : (0 : Int) ≤ (sentinelsBefore coordIndex p : Int) := by omega
    have hk := runLength_gt coordIndex p0 p hp0.1 hp0.2.1
    have hle := hp0.1
    have hnext := hb.next_in_face hwf _ hf0 hlt p0 hread (p - p0) (by omega)
    have hpp : p0 + (p - p0) = p := by omega
    rw [hpp] at hnext
    have hmod : (p - p0 + 1) % runLength coordIndex p0 < runLength coordIndex p0 :=
      Nat.mod_lt _ (by omega)
    exact ⟨_, hnext, runLength_corner coordIndex p0 _ (by omega) (by omega)⟩

/-- C19, at scenario A. -/
theorem next_corner_circular_witness :
    ∃ t, Faces 0 [0, 1, 2, -1, 2, 3, 0, -1] = some t ∧
      (∀ f : Int, 0 ≤ f → f < getNumberOfFaces t →
        ∃ first size : Nat, getFaceFirstCorner t f = some (first : Int) ∧
          getFaceSize t f = some (size : Int) ∧
          ∀ k, k < size →
            getNextCorner t ((first + k : Nat) : Int) =
              some ((first + (k + 1) % size : Nat) : Int) ∧
            (∀ j, iterNext t j ((first + k : Nat) : Int) =
              some ((first + (k + j) % size : Nat) : Int)) ∧
            iterNext t size ((first + k : Nat) : Int) = some ((first + k : Nat) : Int) ∧
            (∀ m, m < size → ∃ j, j < size ∧
              iterNext t j ((first + k : Nat) : Int) = some ((first + m : Nat) : Int)) ∧
            (∀ j1 j2, j1 < size → j2 < size →
              iterNext t j1 ((first + k : Nat) : Int) =
                iterNext t j2 ((first + k : Nat) : Int) → j1 = j2)) ∧
      (∀ p, cornerAt [0, 1, 2, -1, 2, 3, 0, -1] p →
        ∃ q : Nat, getNextCorner t (p : Int) = some (q : Int) ∧
          cornerAt [0, 1, 2, -1, 2, 3, 0, -1] q) :=
  next_corner_circular 0 [0, 1, 2, -1, 2, 3, 0, -1] tableA_size terminated_scenarioA

end Faces

namespace LoaderStl

/-! ## `parseFacet` -/

theorem expect_true {tkn t : Tokenizer} {s : String} (h : tkn.expect s = (true, t)) :
    ∃ rest, tkn.input = s :: rest ∧ t = { token := s, input := rest } := by
  unfold Tokenizer.expect Tokenizer.get at h
  cases hin : tkn.input with
  | nil => simp [hin] at h
  | cons x rest =>
    simp only [hin, Tokenizer.equals, Prod.mk.injEq, decide_eq_true_eq] at h
    obtain ⟨h1, h2⟩ := h
    subst h1
    exact ⟨rest, rfl, h2.symm⟩

theorem expect_cons (tok s : String) (rest : List String) :
    Tokenizer.expect { token := tok, input := s :: rest } s =
      (true, { token := s, input := rest }) := by
  simp [Tokenizer.expect, Tokenizer.get, Tokenizer.equals]

theorem getFloat_cons {F : Type} (parseFloat : String → Option F) (tok s : String)
    (rest : List String) :
    Tokenizer.getFloat parseFloat { token := tok, input := s :: rest } =
      (parseFloat s, { token := s, input := rest }) := by
  simp [Tokenizer.getFloat, Tokenizer.get]

/-- C15: on a tokenizer whose current token is `facet`, followed by the rest of
a well-formed facet block, `parseFacet` returns `true`, appends `n, n+1, n+2, -1`
to `coordIndex` with `n = coord.size()/3` before the call, appends the nine
vertex values in reading order to `coord` and the three normal values to
`normal`; and on every tokenizer whose current token is not `facet`, whatever
follows, it returns `false` and changes none of the arrays. -/
theorem parseFacet_appends_triangle {F : Type} (parseFloat : String → Option F)
    (tkn : Tokenizer) (a : Arrays F) :
    (∀ (f : Facet F) (rest : List String), tkn.token = "facet" →
      FacetBlock parseFloat tkn.input f rest →
      parseFacet parseFloat tkn a =
        (Outcome.returned true, { token := "endfacet", input := rest },
          { coord := a.coord ++ [f.x1, f.y1, f.z1, f.x2, f.y2, f.z2, f.x3, f.y3, f.z3],
            coordIndex := a.coordIndex ++
              [((a.coord.length / 3 : Nat) : Int), ((a.coord.length / 3 : Nat) : Int) + 1,
               ((a.coord.length / 3 : Nat) : Int) + 2, -1],
            normal := a.normal ++ [f.nx, f.ny, f.nz] })) ∧
      (tkn.token ≠ "facet" → parseFacet parseFloat tkn a = (Outcome.returned false, tkn, a)) := by
  constructor
  · intro f rest htok hblock
    obtain ⟨sn1, sn2, sn3, s1, s2, s3, s4, s5, s6, s7, s8, s9, hin, hnx, hny, hnz,
      h1, h2, h3, h4, h5, h6, h7, h8, h9⟩ := hblock
    obtain ⟨tok, input⟩ := tkn
    simp only at hin htok
    subst hin htok
    unfold parseFacet
    rw [if_neg (by simp [Tokenizer.equals])]
    simp only [getFloat_cons, expect_cons, vertexLoop, hnx, hny, hnz, h1, h2, h3, h4, h5, h6,
      h7, h8, h9, List.append_assoc, List.cons_append, List.nil_append, Int.add_zero,
      Int.zero_add]
    rfl
  · intro htok
    unfold parseFacet
    rw [if_pos (by simp [Tokenizer.equals, htok])]


/-- What the vertex loop leaves: `m <= n` completed iterations appended `3 m`
values to `coord` and the indices `start + i, ..., start + i + m - 1` to
`coordIndex`; without exception `m = n`. -/
theorem vertexLoop_spec {F : Type} (parseFloat : String → Option F) (start : Int) :
    ∀ (n : Nat) (i : Int) (tkn : Tokenizer) (a : Arrays F),
      ∃ (m : Nat) (c : List F), m ≤ n ∧ c.length = 3 * m ∧
        (vertexLoop parseFloat start n i tkn a).2.2 =
          { coord := a.coord ++ c,
            coordIndex := a.coordIndex ++ (List.range m).map (fun (j : Nat) => start + i + (j : Int)),
            normal := a.normal } ∧
        ((vertexLoop parseFloat start n i tkn a).1 = none → m = n) := by
  intro n
  induction n with
  | zero =>
    intro i tkn a
    exact ⟨0, [], Nat.le_refl 0, rfl, by simp [vertexLoop], fun _ => rfl⟩
  | succ n ih =>
    intro i tkn a
    have stop : ∀ (e : StrException) (t : Tokenizer),
        ∃ (m : Nat) (c : List F), m ≤ n + 1 ∧ c.length = 3 * m ∧
          ((some e, t, a) : Option StrException × Tokenizer × Arrays F).2.2 =
            { coord := a.coord ++ c,
              coordIndex := a.coordIndex ++ (List.range m).map (fun (j : Nat) => start + i + (j : Int)),
              normal := a.normal } ∧
          (((some e, t, a) : Option StrException × Tokenizer × Arrays F).1 = none → m = n + 1) :=
      fun e t => ⟨0, [], Nat.zero_le _, rfl, by simp, fun h => Option.noConfusion h⟩
    unfold vertexLoop
    split
    · exact stop _ _
    · split
      · exact stop _ _
      · split
        · exact stop _ _
        · split
          · exact stop _ _
          · rename_i x _ _ _ y _ _ _ z t3 _
            obtain ⟨m, c, hm, hc, hres, hnone⟩ := ih (i + 1) t3
              { coord := a.coord ++ [x, y, z], coordIndex := a.coordIndex ++ [start + i],
                normal := a.normal }
            refine ⟨m + 1, [x, y, z] ++ c, by omega, by simp [hc]; omega, ?_,
              fun h => by rw [hnone h]⟩
            have hidx : (List.range (m + 1)).map (fun (j : Nat) => start + i + (j : Int)) =
                (start + i) :: (List.range m).map (fun (j : Nat) => start + (i + 1) + (j : Int)) := by
              rw [List.range_succ_eq_map, List.map_cons, List.map_map]
              refine congrArg₂ _ (by simp) (List.map_congr_left (fun j _ => ?_))
              simp only [Function.comp_apply, Nat.succ_eq_add_one, Nat.cast_add, Nat.cast_one]
              omega
            rw [hres, hidx]
            simp only [List.append_assoc, List.singleton_append]


/-- The arrays `b` extend the arrays `a` by the values `nrm`, `c` and `idx`. -/
theorem Arrays.ext_append {F : Type} (a b : Arrays F) (nrm c : List F) (idx : List Int)
    (h1 : b.coord = a.coord ++ c) (h2 : b.coordIndex = a.coordIndex ++ idx)
    (h3 : b.normal = a.normal ++ nrm) :
    b = { coord := a.coord ++ c, coordIndex := a.coordIndex ++ idx,
          normal := a.normal ++ nrm } := by
  cases b
  simp only at h1 h2 h3
  subst h1 h2 h3
  rfl

/-- What a call of `parseFacet` leaves in the arrays, however it ends: the
arrays before the call, followed by at most 3 normal values, 9 coordinates and 4
indices; all of them when it returns `true`, none when it returns `false`. -/
theorem parseFacet_spec {F : Type} (parseFloat : String → Option F) (tkn : Tokenizer)
    (a : Arrays F) (o : Outcome) (t : Tokenizer) (b : Arrays F)
    (h : parseFacet parseFloat tkn a = (o, t, b)) :
    ∃ (nrm c : List F) (idx : List Int),
      b = { coord := a.coord ++ c, coordIndex := a.coordIndex ++ idx,
            normal := a.normal ++ nrm } ∧
      nrm.length ≤ 3 ∧ c.length ≤ 9 ∧ idx.length ≤ 4 ∧
      (o = Outcome.returned true →
        nrm.length = 3 ∧ c.length = 9 ∧
        idx = [((a.coord.length / 3 : Nat) : Int), ((a.coord.length / 3 : Nat) : Int) + 1,
               ((a.coord.length / 3 : Nat) : Int) + 2, -1]) ∧
      (o = Outcome.returned false → nrm = [] ∧ c = [] ∧ idx = []) := by
  have unchanged : ∀ (o1 : Outcome) (t1 : Tokenizer), o1 ≠ Outcome.returned true →
      (o1, t1, a) = (o, t, b) →
      ∃ (nrm c : List F) (idx : List Int),
        b = { coord := a.coord ++ c, coordIndex := a.coordIndex ++ idx,
              normal := a.normal ++ nrm } ∧
        nrm.length ≤ 3 ∧ c.length ≤ 9 ∧ idx.length ≤ 4 ∧
        (o = Outcome.returned true →
          nrm.length = 3 ∧ c.length = 9 ∧
          idx = [((a.coord.length / 3 : Nat) : Int), ((a.coord.length / 3 : Nat) : Int) + 1,
                 ((a.coord.length / 3 : Nat) : Int) + 2, -1]) ∧
        (o = Outcome.returned false → nrm = [] ∧ c = [] ∧ idx = []) := by
    intro o1 t1 ho heq
    simp only [Prod.mk.injEq] at heq
    obtain ⟨rfl, _, rfl⟩ := heq
    exact ⟨[], [], [], by simp, by simp, by simp, by simp, fun h => absurd h ho,
      fun _ => ⟨rfl, rfl, rfl⟩⟩
  have threw : ∀ (e : StrException) (t1 : Tokenizer) (b1 : Arrays F) (nrm c : List F)
      (idx : List Int),
      b1.coord = a.coord ++ c → b1.coordIndex = a.coordIndex ++ idx →
      b1.normal = a.normal ++ nrm → nrm.length ≤ 3 → c.length ≤ 9 → idx.length ≤ 4 →
      (Outcome.threw e, t1, b1) = (o, t, b) →
      ∃ (nrm c : List F) (idx : List Int),
        b = { coord := a.coord ++ c, coordIndex := a.coordIndex ++ idx,
              normal := a.normal ++ nrm } ∧
        nrm.length ≤ 3 ∧ c.length ≤ 9 ∧ idx.length ≤ 4 ∧
        (o = Outcome.returned true →
          nrm.length = 3 ∧ c.length = 9 ∧
          idx = [((a.coord.length / 3 : Nat) : Int), ((a.coord.length / 3 : Nat) : Int) + 1,
                 ((a.coord.length / 3 : Nat) : Int) + 2, -1]) ∧
        (o = Outcome.returned false → nrm = [] ∧ c = [] ∧ idx = []) := by
    intro e t1 b1 nrm c idx h1 h2 h3 hn hc hi heq
    simp only [Prod.mk.injEq] at heq
    obtain ⟨rfl, _, rfl⟩ := heq
    exact ⟨nrm, c, idx, Arrays.ext_append a b1 nrm c idx h1 h2 h3, hn, hc, hi,
      fun h => Outcome.noConfusion h, fun h => Outcome.noConfusion h⟩
  unfold parseFacet at h
  split at h
  · exact unchanged _ _ (by decide) h
  · split at h
    · exact unchanged _ _ (by simp) h
    · split at h
      · exact unchanged _ _ (by simp) h
      · split at h
        · exact unchanged _ _ (by simp) h
        · split at h
          · exact unchanged _ _ (by simp) h
          · rename_i nx _ _ _ ny _ _ _ nz t3 _
            dsimp only at h
            split at h
            · exact threw _ _ _ [nx, ny, nz] [] [] (by simp) (by simp) rfl (by simp) (by simp)
                (by simp) h
            · split at h
              · exact threw _ _ _ [nx, ny, nz] [] [] (by simp) (by simp) rfl (by simp)
                  (by simp) (by simp) h
              · rename_i t5 _
                obtain ⟨m, c, hm, hc, hres, hnone⟩ := vertexLoop_spec parseFloat
                  ((a.coord.length / 3 : Nat) : Int) 3 0 t5
                  { coord := a.coord, coordIndex := a.coordIndex,
                    normal := a.normal ++ [nx, ny, nz] }
                split at h
                · rename_i e t6 a2 heq
                  rw [heq] at hres
                  simp only at hres
                  exact threw _ _ _ [nx, ny, nz] c _ (by rw [hres]) (by rw [hres]) (by rw [hres])
                    (by simp) (by omega) (by simp; omega) h
                · rename_i t6 a2 heq
                  rw [heq] at hres hnone
                  simp only at hres
                  have hm3 : m = 3 := hnone rfl
                  subst hm3
                  have hidx : a2.coordIndex ++ [-1] = a.coordIndex ++
                      [((a.coord.length / 3 : Nat) : Int), ((a.coord.length / 3 : Nat) : Int) + 1,
                       ((a.coord.length / 3 : Nat) : Int) + 2, -1] := by
                    rw [hres]
                    simp [List.range_succ]
                  split at h
                  · exact threw _ _ _ [nx, ny, nz] c _ (by rw [hres]) hidx (by rw [hres])
                      (by simp) (by omega) (by simp) h
                  · split at h
                    · exact threw _ _ _ [nx, ny, nz] c _ (by rw [hres]) hidx (by rw [hres])
                        (by simp) (by omega) (by simp) h
                    · simp only [Prod.mk.injEq] at h
                      obtain ⟨rfl, _, rfl⟩ := h
                      exact ⟨[nx, ny, nz], c, _,
                        Arrays.ext_append a _ [nx, ny, nz] c _ (by rw [hres]) hidx (by rw [hres]),
                        by simp, by omega, by simp, fun _ => ⟨rfl, by omega, rfl⟩,
                        fun h => by simp at h⟩


theorem facetBlock_lastFacet :
    FacetBlock parseBit lastFacetTokens facetExample ["endsolid", "mesh"] :=
  ⟨"0", "0", "1", "0", "0", "0", "1", "0", "0", "0", "1", "0", rfl, by decide, by decide,
    by decide, by decide, by decide, by decide, by decide, by decide, by decide, by decide,
    by decide, by decide⟩

/-- C15, at the last facet of a file on empty arrays, and at the tokenizer the
loop of `load` calls `parseFacet` on next: current token `endsolid`, followed
by the name of the solid. -/
theorem parseFacet_appends_triangle_witness :
    (parseFacet parseBit { token := "facet", input := lastFacetTokens } noArrays =
        (Outcome.returned true, { token := "endfacet", input := ["endsolid", "mesh"] },
          { coord := [0, 0, 0, 1, 0, 0, 0, 1, 0], coordIndex := [0, 1, 2, -1],
            normal := [0, 0, 1] })) ∧
      parseFacet parseBit { token := "endsolid", input := ["mesh"] } noArrays =
        (Outcome.returned false, { token := "endsolid", input := ["mesh"] }, noArrays) :=
  ⟨(parseFacet_appends_triangle parseBit { token := "facet", input := lastFacetTokens }
      noArrays).1 facetExample ["endsolid", "mesh"] rfl facetBlock_lastFacet,
    (parseFacet_appends_triangle parseBit { token := "endsolid", input := ["mesh"] }
      noArrays).2 (by decide)⟩

/-- The exception of the vertex loop is one of its four. -/
theorem vertexLoop_exception {F : Type} (parseFloat : String → Option F) (start : Int) :
    ∀ (n : Nat) (i : Int) (tkn : Tokenizer) (a : Arrays F) (e : StrException),
      (vertexLoop parseFloat start n i tkn a).1 = some e → ¬ e.beforeNormal := by
  intro n
  induction n with
  | zero =>
    intro i tkn a e h
    simp [vertexLoop] at h
  | succ n ih =>
    intro i tkn a e h
    unfold vertexLoop at h
    split at h
    · simp only [Option.some.injEq] at h
      subst h
      unfold StrException.beforeNormal
      decide
    · split at h
      · simp only [Option.some.injEq] at h
        subst h
        unfold StrException.beforeNormal
        decide
      · split at h
        · simp only [Option.some.injEq] at h
          subst h
          unfold StrException.beforeNormal
          decide
        · split at h
          · simp only [Option.some.injEq] at h
            subst h
            unfold StrException.beforeNormal
            decide
          · exact ih _ _ _ e h

/-- Where a throw of `parseFacet` leaves the arrays: unchanged when the exception
is one of the four thrown before the normal is stored, and otherwise with three
more values in `normal`. -/
theorem parseFacet_threw_cases {F : Type} (parseFloat : String → Option F) (tkn : Tokenizer)
    (a : Arrays F) (e : StrException) (t : Tokenizer) (b : Arrays F)
    (h : parseFacet parseFloat tkn a = (Outcome.threw e, t, b)) :
    (e.beforeNormal ∧ b = a) ∨
      (¬ e.beforeNormal ∧ ∃ nx ny nz : F, b.normal = a.normal ++ [nx, ny, nz]) := by
  have early : ∀ (e1 : StrException) (t1 : Tokenizer), e1.beforeNormal →
      (Outcome.threw e1, t1, a) = (Outcome.threw e, t, b) →
      (e.beforeNormal ∧ b = a) ∨
        (¬ e.beforeNormal ∧ ∃ nx ny nz : F, b.normal = a.normal ++ [nx, ny, nz]) := by
    intro e1 t1 he heq
    simp only [Prod.mk.injEq, Outcome.threw.injEq] at heq
    obtain ⟨rfl, _, rfl⟩ := heq
    exact Or.inl ⟨he, rfl⟩
  have late : ∀ (e1 : StrException) (t1 : Tokenizer) (b1 : Arrays F) (nx ny nz : F),
      ¬ e1.beforeNormal → b1.normal = a.normal ++ [nx, ny, nz] →
      (Outcome.threw e1, t1, b1) = (Outcome.threw e, t, b) →
      (e.beforeNormal ∧ b = a) ∨
        (¬ e.beforeNormal ∧ ∃ nx ny nz : F, b.normal = a.normal ++ [nx, ny, nz]) := by
    intro e1 t1 b1 nx ny nz he hn heq
    simp only [Prod.mk.injEq, Outcome.threw.injEq] at heq
    obtain ⟨rfl, _, rfl⟩ := heq
    exact Or.inr ⟨he, nx, ny, nz, hn⟩
  unfold parseFacet at h
  split at h
  · simp at h
  · split at h
    · exact early _ _ (Or.inl rfl) h
    · split at h
      · exact early _ _ (Or.inr (Or.inl rfl)) h
      · split at h
        · exact early _ _ (Or.inr (Or.inr (Or.inl rfl))) h
        · split at h
          · exact early _ _ (Or.inr (Or.inr (Or.inr rfl))) h
          · rename_i nx _ _ _ ny _ _ _ nz t3 _
            dsimp only at h
            split at h
            · exact late _ _ _ nx ny nz (by unfold StrException.beforeNormal; decide) rfl h
            · split at h
              · exact late _ _ _ nx ny nz (by unfold StrException.beforeNormal; decide) rfl h
              · rename_i t5 _
                obtain ⟨m, c, _, _, hres, _⟩ := vertexLoop_spec parseFloat
                  ((a.coord.length / 3 : Nat) : Int) 3 0 t5
                  { coord := a.coord, coordIndex := a.coordIndex,
                    normal := a.normal ++ [nx, ny, nz] }
                have hexc := vertexLoop_exception parseFloat
                  ((a.coord.length / 3 : Nat) : Int) 3 0 t5
                  { coord := a.coord, coordIndex := a.coordIndex,
                    normal := a.normal ++ [nx, ny, nz] }
                split at h
                · rename_i e1 t6 a2 heq
                  rw [heq] at hres hexc
                  simp only at hres
                  exact late _ _ _ nx ny nz (hexc e1 rfl) (by rw [hres]) h
                · rename_i t6 a2 heq
                  rw [heq] at hres
                  simp only at hres
                  split at h
                  · exact late _ _ _ nx ny nz (by unfold StrException.beforeNormal; decide)
                      (by rw [hres]) h
                  · split at h
                    · exact late _ _ _ nx ny nz (by unfold StrException.beforeNormal; decide)
                        (by rw [hres]) h
                    · simp at h

/-- C17 (the code does not meet it): when `parseFacet` throws, the arrays equal
their values before the call only if the exception is one of the four thrown
before the normal is stored (lines 63-70).  On every other throw the arrays are
not restored: they are the arrays before the call followed by the three values
of the normal, by the coordinates of the vertices read so far (at most 9) and by
their indices (at most 4), so the mesh is left partially populated. -/
theorem parseFacet_throw_leaves_partial_arrays {F : Type} (parseFloat : String → Option F)
    (tkn : Tokenizer) (a : Arrays F) (e : StrException) (t : Tokenizer) (b : Arrays F)
    (h : parseFacet parseFloat tkn a = (Outcome.threw e, t, b)) :
    (b = a ↔ e.beforeNormal) ∧
      (¬ e.beforeNormal →
        ∃ (nx ny nz : F) (c : List F) (idx : List Int),
          b = { coord := a.coord ++ c, coordIndex := a.coordIndex ++ idx,
                normal := a.normal ++ [nx, ny, nz] } ∧
          c.length ≤ 9 ∧ idx.length ≤ 4) := by
  obtain ⟨nrm, c, idx, hb, _, hc, hi, _⟩ := parseFacet_spec parseFloat tkn a _ t b h
  have hne : ∀ nx ny nz : F, b.normal = a.normal ++ [nx, ny, nz] → b ≠ a := by
    intro nx ny nz hn heq
    rw [heq] at hn
    have := congrArg List.length hn
    simp at this
  rcases parseFacet_threw_cases parseFloat tkn a e t b h with ⟨he, hba⟩ | ⟨he, nx, ny, nz, hn⟩
  · exact ⟨⟨fun _ => he, fun _ => hba⟩, fun hnot => absurd he hnot⟩
  · refine ⟨⟨fun hba => absurd hba (hne nx ny nz hn), fun he2 => absurd he2 he⟩, fun _ => ?_⟩
    refine ⟨nx, ny, nz, c, idx, ?_, hc, hi⟩
    rw [hb] at hn ⊢
    simp only at hn
    rw [List.append_cancel_left hn]

/-- C17, at a facet block that ends in the second vertex, on empty arrays: the
exception is the one of the second coordinate of a vertex, and the arrays hold
the normal, the first vertex and its index. -/
theorem parseFacet_throw_leaves_partial_arrays_witness :
    parseFacet parseBit truncatedFacet noArrays =
        (Outcome.threw StrException.vertexY, { token := "", input := [] },
          { coord := [0, 0, 0], coordIndex := [0], normal := [0, 0, 1] }) ∧
      (({ coord := [0, 0, 0], coordIndex := [0], normal := [0, 0, 1] } : Arrays Int) = noArrays ↔
        StrException.vertexY.beforeNormal) ∧
      ¬ (({ coord := [0, 0, 0], coordIndex := [0], normal := [0, 0, 1] } : Arrays Int) =
        noArrays) :=
  ⟨by decide,
    (parseFacet_throw_leaves_partial_arrays parseBit truncatedFacet noArrays
      StrException.vertexY { token := "", input := [] }
      { coord := [0, 0, 0], coordIndex := [0], normal := [0, 0, 1] } (by decide)).1,
    by decide⟩

/-! ## The arrays of a loaded mesh -/

theorem FacetsParsed.arrays {F : Type} {parseFloat : String → Option F} {k : Nat}
    {a : Arrays F} (h : FacetsParsed parseFloat k a) :
    a.coordIndex = triIndex k ∧ a.coord.length = 9 * k ∧ a.normal.length = 3 * k := by
  induction h with
  | zero => exact ⟨rfl, rfl, rfl⟩
  | succ k a a1 tkn tkn1 _ hcall ih =>
    obtain ⟨hidx, hcoord, hnormal⟩ := ih
    obtain ⟨nrm, c, idx, hb, _, _, _, htrue, _⟩ := parseFacet_spec parseFloat tkn a _ tkn1 a1 hcall
    obtain ⟨hn, hc, hi⟩ := htrue rfl
    have hdiv : a.coord.length / 3 = 3 * k := by omega
    rw [hdiv] at hi
    subst hb
    refine ⟨?_, ?_, ?_⟩
    · simp only [hidx, hi, triIndex]
      push_cast
      rfl
    · simp only [List.length_append, hcoord, hc]; omega
    · simp only [List.length_append, hnormal, hn]; omega

end LoaderStl

namespace SaverStl

/-! ## The checks of `save` -/

theorem getFaceSize_total {nV : Int} {ci : List Int} {t : Faces.FacesState}
    (hb : Faces.Built nV ci t) (f : Int) : ∃ size, Faces.getFaceSize t f = some size := by
  by_cases hout : f < 0 ∨ t.nFaces ≤ f
  · exact ⟨0, hb.getFaceSize_out f hout⟩
  · obtain ⟨p, hp, _⟩ := hb.face_lookup f (by omega) (by omega)
    exact ⟨_, hb.getFaceSize_in f (by omega) (by omega) p hp⟩

theorem checkTriangles_true (t : Faces.FacesState) :
    ∀ (n : Nat) (i : Int),
      (∀ f : Int, i ≤ f → f < i + n → Faces.getFaceSize t f = some 3) →
      checkTriangles t n i = some true := by
  intro n
  induction n with
  | zero => intro i _; rfl
  | succ n ih =>
    intro i h
    have hi := h i (Int.le_refl i) (by omega)
    simp only [checkTriangles, hi, ne_eq, not_true_eq_false, if_false]
    exact ih (i + 1) (fun f h1 h2 => h f (by omega) (by push_cast at h2 ⊢; omega))

theorem checkTriangles_false {nV : Int} {ci : List Int} {t : Faces.FacesState}
    (hb : Faces.Built nV ci t) :
    ∀ (n : Nat) (i : Int),
      (∃ f : Int, i ≤ f ∧ f < i + n ∧ Faces.getFaceSize t f ≠ some 3) →
      checkTriangles t n i = some false := by
  intro n
  induction n with
  | zero => rintro i ⟨f, h1, h2, _⟩; simp at h2; omega
  | succ n ih =>
    rintro i ⟨f, h1, h2, h3⟩
    obtain ⟨size, hs⟩ := getFaceSize_total hb i
    by_cases h : size = 3
    · subst h
      simp only [checkTriangles, hs, ne_eq, not_true_eq_false, if_false]
      have hne : f ≠ i := fun heq => h3 (heq ▸ hs)
      exact ih (i + 1) ⟨f, by omega, by push_cast at h2 ⊢; omega, h3⟩
    · simp [checkTriangles, hs, h]

theorem countNormals_eq (ni : List Int) :
    ∀ (l : List Int) (i : Nat) (c : Int), ni.drop i = l →
      countNormals ni l.length i c = c + ((l.countP (fun v => decide (v ≠ -1)) : Nat) : Int) := by
  intro l
  induction l with
  | nil => intro i c _; simp [countNormals]
  | cons v l ih =>
    intro i c h
    obtain ⟨hv, hd⟩ := Faces.drop_cons_step h
    obtain ⟨hi, hget⟩ := List.getElem?_eq_some_iff.mp hv
    by_cases h1 : v = -1
    · simp only [List.length_cons, countNormals, hi, dite_true, hget, h1, ne_eq,
        not_true_eq_false, if_false, ih (i + 1) c hd]
      simp
    · simp only [List.length_cons, countNormals, hi, dite_true, hget, ne_eq, h1,
        not_false_eq_true, if_true, ih (i + 1) (c + 1) hd]
      simp [h1]
      omega

theorem countNormals_full (ni : List Int) :
    countNormals ni ni.length 0 0 = ((ni.countP (fun v => decide (v ≠ -1)) : Nat) : Int) := by
  have h := countNormals_eq ni ni 0 0 (by simp)
  simpa using h


/-- C16: when the table built from the IndexedFaceSet has a face `f` in
`[0, getNumberOfFaces())` with `getFaceSize(f) != 3`, or `normalPerVertex` is
true, or the normal array is empty, or the number of per-face normals differs
from `getNumberOfFaces()`, `save` returns `false` without any call on the output
file: no `fopen` and no line printed. -/
theorem save_rejects_before_open {F : Type} (filename : Option String) (canOpen : Bool)
    (ifs : IndexedFaceSet F) (t : Faces.FacesState)
    (hsize : ifs.coordIndex.length < 2 ^ 64)
    (hbuilt : Faces.Faces ((ifs.coord.length / 3 : Nat) : Int) ifs.coordIndex = some t)
    (hcond : (∃ f : Int, 0 ≤ f ∧ f < Faces.getNumberOfFaces t ∧
          Faces.getFaceSize t f ≠ some 3) ∨
        ifs.normalPerVertex = true ∨ ifs.normal = [] ∨
        perFaceNormals ifs ≠ Faces.getNumberOfFaces t) :
    save filename canOpen [Node.shape (Geometry.indexedFaceSet ifs)] =
      some { success := false, events := [] } := by
  have hb := Faces.built_of_Faces _ _ t hsize hbuilt
  clear hsize
  cases filename with
  | none => rfl
  | some fname =>
    have hn0 : (0 : Int) ≤ Faces.getNumberOfFaces t := by
      unfold Faces.getNumberOfFaces; rw [hb.nFaces_eq]; omega
    simp only [save, hbuilt]
    by_cases hex : ∃ f : Int, 0 ≤ f ∧ f < Faces.getNumberOfFaces t ∧
        Faces.getFaceSize t f ≠ some 3
    · obtain ⟨f, h0, h1, h2⟩ := hex
      rw [checkTriangles_false hb _ 0 ⟨f, h0, by rw [Int.toNat_of_nonneg hn0]; omega, h2⟩]
    · have hall : ∀ f : Int, 0 ≤ f → f < 0 + ((Faces.getNumberOfFaces t).toNat : Int) →
          Faces.getFaceSize t f = some 3 := by
        intro f h0 h1
        by_contra hne
        exact hex ⟨f, h0, by rw [Int.toNat_of_nonneg hn0] at h1; omega, hne⟩
      rw [checkTriangles_true t _ 0 hall]
      simp only
      by_cases hpv : ifs.normalPerVertex = true
      · rw [if_pos hpv]
      · rw [if_neg hpv]
        by_cases hne : ifs.normal.length = 0
        · rw [if_pos hne]
        · rw [if_neg hne]
          have hcount : (if ifs.normalIndex.length > 0 then
                countNormals ifs.normalIndex ifs.normalIndex.length 0 0
              else ((ifs.normal.length / 3 : Nat) : Int)) = perFaceNormals ifs := by
            unfold perFaceNormals
            rw [countNormals_full]
            by_cases hni : ifs.normalIndex = []
            · simp [hni]
            · have : ifs.normalIndex.length > 0 := List.length_pos.mpr hni
              simp [hni, this]
          rw [hcount]
          have hlast : perFaceNormals ifs ≠ Faces.getNumberOfFaces t := by
            rcases hcond with h | h | h | h
            · exact absurd h hex
            · exact absurd h hpv
            · exact absurd (by rw [h]; rfl) hne
            · exact h
          rw [if_pos hlast]

/-- C16, for a coordIndex `0 1 -1` whose only face has size 2. -/
theorem save_rejects_before_open_witness :
    save (some "out.stl") true [Node.shape (Geometry.indexedFaceSet twoCornerMesh)] =
      some { success := false, events := [] } :=
  save_rejects_before_open (some "out.stl") true twoCornerMesh twoCornerTable
    (by decide) (by decide) (Or.inl ⟨0, by decide, by decide, by decide⟩)

end SaverStl

namespace LoaderStl

open Faces

/-! ## The index sequence of a loaded mesh -/

theorem triIndex_length (k : Nat) : (triIndex k).length = 4 * k := by
  induction k with
  | zero => rfl
  | succ k ih => simp only [triIndex, List.length_append, ih, List.length_cons, List.length_nil]; omega

theorem triIndex_getElem? (k : Nat) :
    ∀ f j : Nat, f < k → j < 4 →
      (triIndex k)[4 * f + j]? = some (if j = 3 then -1 else 3 * (f : Int) + (j : Int)) := by
  induction k with
  | zero => intro f j hf; omega
  | succ k ih =>
    intro f j hf hj
    unfold triIndex
    by_cases hfk : f < k
    · rw [List.getElem?_append_left (by rw [triIndex_length]; omega)]
      exact ih f j hfk hj
    · have hfk2 : f = k := by omega
      subst hfk2
      rw [List.getElem?_append_right (by rw [triIndex_length]; omega), triIndex_length]
      have hidx : 4 * f + j - 4 * f = j := by omega
      rw [hidx]
      interval_cases j <;> simp

theorem triIndex_sentinelAt (k p : Nat) :
    sentinelAt (triIndex k) p ↔ p < 4 * k ∧ p % 4 = 3 := by
  unfold sentinelAt
  by_cases hp : p < 4 * k
  · have hsplit : p = 4 * (p / 4) + p % 4 := by omega
    have hget := triIndex_getElem? k (p / 4) (p % 4) (by omega) (by omega)
    rw [← hsplit] at hget
    rw [hget]
    by_cases h3 : p % 4 = 3
    · simp [h3, hp]
    · simp only [h3, if_false, Option.some.injEq, hp, true_and, iff_false]
      omega
  · rw [List.getElem?_eq_none (by rw [triIndex_length]; omega)]
    simp [hp]

theorem triIndex_terminated (k : Nat) (hk : 1 ≤ k) : Terminated (triIndex k) := by
  refine ⟨?_, ⟨?_, ?_⟩, ?_⟩
  · intro h
    have := triIndex_length k
    rw [h] at this
    simp at this
    omega
  · rw [triIndex_sentinelAt]; omega
  · intro p hp
    rw [triIndex_sentinelAt] at hp ⊢
    omega
  · rw [triIndex_sentinelAt, triIndex_length]; omega

theorem triIndex_count (k : Nat) : (triIndex k).count (-1) = k := by
  induction k with
  | zero => rfl
  | succ k ih =>
    have h1 : ¬ (3 * (k : Int) = -1) := by omega
    have h2 : ¬ (3 * (k : Int) + 1 = -1) := by omega
    have h3 : ¬ (3 * (k : Int) + 2 = -1) := by omega
    have hblock : List.count (-1) [3 * (k : Int), 3 * (k : Int) + 1, 3 * (k : Int) + 2, -1] = 1 := by
      simp [List.count_cons, h1, h2, h3]
    rw [triIndex, List.count_append, ih, hblock]

theorem scanMax_append (l1 l2 : List Int) :
    ∀ m : Int, scanMax (l1 ++ l2) m = scanMax l2 (scanMax l1 m) := by
  induction l1 with
  | nil => intro m; rfl
  | cons v l ih =>
    intro m
    simp only [List.cons_append, scanMax]
    split
    · exact ih m
    · split
      · exact ih v
      · exact ih m

theorem triIndex_scanMax (k : Nat) : scanMax (triIndex k) (-1) = 3 * (k : Int) - 1 := by
  induction k with
  | zero => rfl
  | succ k ih =>
    rw [triIndex, scanMax_append, ih]
    have h1 : ¬ (3 * (k : Int) = -1) := by omega
    have h2 : 3 * (k : Int) > 3 * (k : Int) - 1 := by omega
    have h3 : ¬ (3 * (k : Int) + 1 = -1) := by omega
    have h4 : 3 * (k : Int) + 1 > 3 * (k : Int) := by omega
    have h5 : ¬ (3 * (k : Int) + 2 = -1) := by omega
    have h6 : 3 * (k : Int) + 2 > 3 * (k : Int) + 1 := by omega
    simp only [scanMax, h1, h2, h3, h4, h5, h6, if_true, if_false]
    push_cast
    omega

theorem triIndex_take (k : Nat) : ∀ f, f ≤ k → (triIndex k).take (4 * f) = triIndex f := by
  induction k with
  | zero =>
    intro f hf
    have : f = 0 := by omega
    subst this; rfl
  | succ k ih =>
    intro f hf
    by_cases hfk : f ≤ k
    · rw [triIndex, List.take_append_of_le_length (by rw [triIndex_length]; omega)]
      exact ih f hfk
    · have : f = k + 1 := by omega
      subst this
      exact List.take_of_length_le (by rw [triIndex_length])

theorem triIndex_sentinelsBefore (k f : Nat) (hf : f ≤ k) :
    sentinelsBefore (triIndex k) (4 * f) = f := by
  unfold sentinelsBefore
  rw [triIndex_take k f hf, triIndex_count]

theorem triIndex_runStart (k f : Nat) (hf : f < k) : runStart (triIndex k) (4 * f) := by
  refine ⟨⟨by rw [triIndex_length]; omega, ?_⟩, ?_⟩
  · rw [triIndex_sentinelAt]; omega
  · by_cases h0 : f = 0
    · left; omega
    · right
      rw [triIndex_sentinelAt]; omega

theorem runLength_eq (ci : List Int) (s n : Nat)
    (hall : ∀ q, s ≤ q → q < s + n → cornerAt ci q) (hstop : sentinelAt ci (s + n)) :
    runLength ci s = n := by
  have hge : n ≤ runLength ci s := by
    by_contra hlt
    have hn : 0 < n := by omega
    have := runLength_gt ci s (s + n - 1) (by omega) (fun q h1 h2 => hall q h1 (by omega))
    omega
  by_contra hne
  exact (runLength_corner ci s (s + n) (by omega) (by omega)).2 hstop

theorem triIndex_runLength (k f : Nat) (hf : f < k) : runLength (triIndex k) (4 * f) = 3 := by
  apply runLength_eq
  · intro q h1 h2
    refine ⟨by rw [triIndex_length]; omega, ?_⟩
    rw [triIndex_sentinelAt]; omega
  · rw [triIndex_sentinelAt]; omega


/-- The table of the index sequence of `k >= 1` triangles, built with declared
count `3 k`: `k` faces, `3 k` vertices, every face of size 3 with the vertices
`3 f, 3 f + 1, 3 f + 2`. -/
theorem triIndex_table (k : Nat) (hk : 1 ≤ k) (hsize : (triIndex k).length < 2 ^ 64) :
    ∃ t, Faces.Faces (3 * (k : Int)) (triIndex k) = some t ∧ getNumberOfFaces t = (k : Int) ∧
      getNumberOfVertices t = 3 * (k : Int) ∧
      (∀ f : Nat, f < k → getFaceSize t (f : Int) = some 3 ∧
        ∀ j : Nat, j < 3 → getFaceVertex t (f : Int) (j : Int) = some (3 * (f : Int) + (j : Int))) := by
  have hterm := triIndex_terminated k hk
  obtain ⟨t, ht, hb⟩ := hterm.built (3 * (k : Int)) hsize
  clear hsize
  have hwf := hterm.2.1
  have hnf : t.nFaces = (k : Int) := by rw [hb.nFaces_eq, triIndex_count]
  refine ⟨t, ht, hnf, ?_, ?_⟩
  · unfold getNumberOfVertices
    rw [hb.nVertices_eq, triIndex_scanMax]
    split <;> omega
  · intro f hf
    have h0 : (0 : Int) ≤ (f : Int) := by omega
    have h1 : (f : Int) < t.nFaces := by omega
    obtain ⟨p, hp, hrs, hsb, _, _⟩ := hb.face_run hwf (f : Int) h0 h1
    have hrs4 := triIndex_runStart k f hf
    have hpp : p = 4 * f := by
      apply runStart_unique (triIndex k) p (4 * f) hrs hrs4
      rw [← hwf.sentinelsBefore_runStart p hrs, ← hwf.sentinelsBefore_runStart (4 * f) hrs4,
        triIndex_sentinelsBefore k f (by omega)]
      omega
    subst hpp
    have hsz := hb.getFaceSize_in (f : Int) h0 h1 (4 * f) hp
    rw [triIndex_runLength k f hf] at hsz
    refine ⟨hsz, ?_⟩
    intro j hj
    rw [hb.getFaceVertex_in (f : Int) (j : Int) h0 h1 (4 * f) hp, triIndex_runLength k f hf,
      if_neg (by omega), Int.toNat_ofNat, triIndex_getElem? k f j hf (by omega),
      if_neg (by omega)]

/-- C20: after `k >= 1` calls of `parseFacet` that returned `true`, starting from
empty arrays, `coordIndex` is `0 1 2 -1 3 4 5 -1 ... 3k-3 3k-2 3k-1 -1` and
`coord.size() / 3 = 3 k`; the table `Faces(3 k, coordIndex)` has `k` faces and
`3 k` vertices, `getFaceSize(f) = 3` and `getFaceVertex(f, j) = 3 f + j` for
`f < k` and `j < 3`; and the triangle check of `save` accepts it. -/
theorem loaded_mesh_is_triangle_mesh {F : Type} (parseFloat : String → Option F) (k : Nat)
    (a : Arrays F) (hk : 1 ≤ k) (hsize : 4 * k < 2 ^ 64)
    (hparsed : FacetsParsed parseFloat k a) :
    a.coordIndex = triIndex k ∧ ((a.coord.length / 3 : Nat) : Int) = 3 * (k : Int) ∧
      ∃ t, Faces.Faces (3 * (k : Int)) a.coordIndex = some t ∧
        getNumberOfFaces t = (k : Int) ∧ getNumberOfVertices t = 3 * (k : Int) ∧
        (∀ f : Nat, f < k → getFaceSize t (f : Int) = some 3 ∧
          ∀ j : Nat, j < 3 →
            getFaceVertex t (f : Int) (j : Int) = some (3 * (f : Int) + (j : Int))) ∧
        SaverStl.checkTriangles t (getNumberOfFaces t).toNat 0 = some true := by
  obtain ⟨hidx, hcoord, _⟩ := hparsed.arrays
  have hlen : (triIndex k).length < 2 ^ 64 := by rw [triIndex_length]; exact hsize
  clear hsize
  obtain ⟨t, ht, hnf, hnv, hfaces⟩ := triIndex_table k hk hlen
  clear hlen
  refine ⟨hidx, by rw [hcoord]; omega, t, by rw [hidx]; exact ht, hnf, hnv, hfaces, ?_⟩
  apply SaverStl.checkTriangles_true
  intro f h0 h1
  rw [hnf, Int.toNat_ofNat] at h1
  obtain ⟨m, rfl⟩ := Int.eq_ofNat_of_zero_le h0
  exact (hfaces m (by omega)).1

/-- C20, for one facet: the arrays after the facet of the examples. -/
theorem loaded_mesh_is_triangle_mesh_witness :
    ({ coord := [0, 0, 0, 1, 0, 0, 0, 1, 0], coordIndex := [0, 1, 2, -1],
       normal := [0, 0, 1] } : Arrays Int).coordIndex = triIndex 1 ∧
      ((([0, 0, 0, 1, 0, 0, 0, 1, 0] : List Int).length / 3 : Nat) : Int) = 3 * ((1 : Nat) : Int) ∧
      ∃ t, Faces.Faces (3 * ((1 : Nat) : Int)) [0, 1, 2, -1] = some t ∧
        getNumberOfFaces t = ((1 : Nat) : Int) ∧ getNumberOfVertices t = 3 * ((1 : Nat) : Int) ∧
        (∀ f : Nat, f < 1 → getFaceSize t (f : Int) = some 3 ∧
          ∀ j : Nat, j < 3 →
            getFaceVertex t (f : Int) (j : Int) = some (3 * (f : Int) + (j : Int))) ∧
        SaverStl.checkTriangles t (getNumberOfFaces t).toNat 0 = some true :=
  loaded_mesh_is_triangle_mesh parseBit 1
    { coord := [0, 0, 0, 1, 0, 0, 0, 1, 0], coordIndex := [0, 1, 2, -1], normal := [0, 0, 1] }
    (by decide) (by decide)
    (FacetsParsed.succ 0 noArrays _ { token := "facet", input := facetTokens }
      { token := "endfacet", input := [] } FacetsParsed.zero (by decide))

end LoaderStl

namespace SaverStl

/-! ## The write loops of `save` -/

theorem readFloat_some {F : Type} (v : List F) (i : Int) (h0 : 0 ≤ i)
    (h1 : i < (v.length : Int)) : ∃ x, readFloat v i = some x := by
  unfold readFloat
  rw [if_pos h0]
  exact ⟨_, List.getElem?_eq_getElem (by omega)⟩

theorem writeVertices_some {F : Type} (t : Faces.FacesState) (coord : List F) (f : Int)
    (h : FaceInBounds t coord f) :
    ∀ (n : Nat) (j : Int), 0 ≤ j → j + n ≤ 3 → ∃ ev, writeVertices t coord f n j = some ev := by
  intro n
  induction n with
  | zero => intro j _ _; exact ⟨_, rfl⟩
  | succ n ih =>
    intro j h0 h3
    obtain ⟨v, hv, hv0, hv1⟩ := h j h0 (by omega)
    obtain ⟨x, hx⟩ := readFloat_some coord (3 * v + 0) (by omega) (by omega)
    obtain ⟨y, hy⟩ := readFloat_some coord (3 * v + 1) (by omega) (by omega)
    obtain ⟨z, hz⟩ := readFloat_some coord (3 * v + 2) (by omega) (by omega)
    obtain ⟨rest, hrest⟩ := ih (j + 1) (by omega) (by push_cast at h3; omega)
    exact ⟨Event.fprintf (Line.vertex x y z) :: rest,
      by simp only [writeVertices, hv, hx, hy, hz, hrest]⟩

theorem writeFacet_some {F : Type} (t : Faces.FacesState) (coord normal : List F) (f nIdx : Int)
    (h : FaceInBounds t coord f) (h0 : 0 ≤ nIdx) (h1 : 3 * nIdx + 2 < (normal.length : Int)) :
    ∃ ev, writeFacet t coord normal f nIdx = some ev := by
  obtain ⟨x, hx⟩ := readFloat_some normal (3 * nIdx + 0) (by omega) (by omega)
  obtain ⟨y, hy⟩ := readFloat_some normal (3 * nIdx + 1) (by omega) (by omega)
  obtain ⟨z, hz⟩ := readFloat_some normal (3 * nIdx + 2) (by omega) (by omega)
  obtain ⟨vs, hvs⟩ := writeVertices_some t coord f h 3 0 (Int.le_refl 0) (by decide)
  exact ⟨[Event.fprintf (Line.facetNormal x y z), Event.fprintf Line.outerLoop] ++ vs ++
      [Event.fprintf Line.endloop, Event.fprintf Line.endfacet],
    by simp only [writeFacet, hx, hy, hz, hvs]⟩

theorem writeUnindexed_some {F : Type} (t : Faces.FacesState) (coord normal : List F) :
    ∀ (n : Nat) (iF : Int), 0 ≤ iF →
      (∀ f : Int, iF ≤ f → f < iF + n →
        FaceInBounds t coord f ∧ 3 * f + 2 < (normal.length : Int)) →
      ∃ ev, writeUnindexed t coord normal n iF = some ev := by
  intro n
  induction n with
  | zero => intro iF _ _; exact ⟨_, rfl⟩
  | succ n ih =>
    intro iF h0 h
    obtain ⟨hf, hn⟩ := h iF (Int.le_refl iF) (by omega)
    obtain ⟨facet, hfacet⟩ := writeFacet_some t coord normal iF iF hf h0 hn
    obtain ⟨rest, hrest⟩ := ih (iF + 1) (by omega)
      (fun f h1 h2 => h f (by omega) (by push_cast at h2 ⊢; omega))
    exact ⟨facet ++ rest, by simp only [writeUnindexed, hfacet, hrest]⟩

/-- With enough iterations the skipping loop stops at the end of `normalIndex`
or at an entry other than `-1`. -/
theorem skipSentinels_stop (ni : List Int) :
    ∀ (n i : Nat), ni.length - i ≤ n → ni[skipSentinels ni n i]? ≠ some (-1) := by
  intro n
  induction n with
  | zero =>
    intro i h
    rw [skipSentinels, List.getElem?_eq_none (by omega)]
    exact fun h => Option.noConfusion h
  | succ n ih =>
    intro i h
    unfold skipSentinels
    split
    · rename_i hi
      split
      · exact ih (i + 1) (by omega)
      · rename_i hne
        rw [List.getElem?_eq_getElem hi]
        exact fun heq => hne (Option.some.inj heq)
    · rw [List.getElem?_eq_none (by omega)]
      exact fun h => Option.noConfusion h

theorem writeIndexed_some {F : Type} (t : Faces.FacesState) (coord normal : List F)
    (ni : List Int)
    (hni : ∀ x ∈ ni, x = -1 ∨ (0 ≤ x ∧ 3 * x + 2 < (normal.length : Int))) :
    ∀ (n : Nat) (iF : Int) (idx : Nat),
      (∀ f : Int, iF ≤ f → f < iF + n → FaceInBounds t coord f) →
      ∃ ev, writeIndexed t coord normal ni n iF idx = some ev := by
  intro n
  induction n with
  | zero => intro iF idx _; exact ⟨_, rfl⟩
  | succ n ih =>
    intro iF idx h
    have hf := h iF (Int.le_refl iF) (by omega)
    have hrest := fun idx2 => ih (iF + 1) idx2
      (fun f h1 h2 => h f (by omega) (by push_cast at h2 ⊢; omega))
    have hstop := skipSentinels_stop ni (ni.length - idx) idx (Nat.le_refl _)
    unfold writeIndexed
    simp only
    split
    · rename_i hlt
      rw [List.getElem?_eq_getElem hlt] at hstop
      have hne : ni[skipSentinels ni (ni.length - idx) idx] ≠ -1 :=
        fun heq => hstop (by rw [heq])
      rcases hni _ (List.getElem_mem hlt) with hm | ⟨hm0, hm1⟩
      · exact absurd hm hne
      · obtain ⟨facet, hfacet⟩ := writeFacet_some t coord normal iF _ hf hm0 hm1
        obtain ⟨rest, hr⟩ := hrest (skipSentinels ni (ni.length - idx) idx + 1)
        exact ⟨facet ++ rest, by simp only [hfacet, hr]⟩
    · exact hrest _


/-- On a constructed table, a face of size 3 whose three entries of `coordIndex`
are indices of vertices of `coord` can be read in `coord`. -/
theorem faceInBounds_of_range {F : Type} {nV : Int} {ci : List Int} {t : Faces.FacesState}
    (hb : Faces.Built nV ci t) (coord : List F)
    (hci : ∀ v ∈ ci, v = -1 ∨ (0 ≤ v ∧ v < ((coord.length / 3 : Nat) : Int)))
    (f : Int) (h0 : 0 ≤ f) (h1 : f < t.nFaces) (h3 : Faces.getFaceSize t f = some 3) :
    FaceInBounds t coord f := by
  obtain ⟨p, hp, _, _, _⟩ := hb.face_lookup f h0 h1
  have hsz := hb.getFaceSize_in f h0 h1 p hp
  rw [h3] at hsz
  have hlen : (Faces.runLength ci p : Int) = 3 := (Option.some.inj hsz).symm
  intro j hj0 hj3
  have hv := hb.getFaceVertex_in f j h0 h1 p hp
  rw [if_neg (by omega)] at hv
  obtain ⟨hlt, hns⟩ := Faces.runLength_corner ci p (p + j.toNat) (by omega) (by omega)
  have hget : ci[p + j.toNat]? = some ci[p + j.toNat] := List.getElem?_eq_getElem hlt
  refine ⟨ci[p + j.toNat], by rw [hv, hget], ?_⟩
  rcases hci _ (List.getElem_mem hlt) with hm | ⟨hm0, hm1⟩
  · exact absurd (by unfold Faces.sentinelAt; rw [hget, hm]) hns
  · exact ⟨hm0, by omega⟩

theorem validationPasses_farVertex : ValidationPasses farVertexMesh farVertexTable := by
  refine ⟨by decide, ?_, rfl, by decide, by decide⟩
  intro f h0 h1
  have h2 : f < 1 := h1
  have hf : f = 0 := by omega
  subst hf
  decide

theorem validationPasses_farNormal : ValidationPasses farNormalMesh oneTriangleTable := by
  refine ⟨by decide, ?_, rfl, by decide, by decide⟩
  intro f h0 h1
  have h2 : f < 1 := h1
  have hf : f = 0 := by omega
  subst hf
  decide

theorem validationPasses_indexedTriangle :
    ValidationPasses indexedTriangleMesh oneTriangleTable := by
  refine ⟨by decide, ?_, rfl, by decide, by decide⟩
  intro f h0 h1
  have h2 : f < 1 := h1
  have hf : f = 0 := by omega
  subst hf
  decide

/-- C21 (as stated, refuted): the checks of `save` pass on a triangle `0 1 5` over
three vertices and on a normal index `7` over one normal; `getFaceVertex(0, 2) = 5`
has `3 * 5 + 2 >= coord.size() = 9`, the normal index 7 has `3 * 7 + 2 >=
normal.size() = 3`, and the write loop reads outside the array in both. -/
theorem validated_mesh_reads_outside :
    ValidationPasses farVertexMesh farVertexTable ∧
      ¬ ReadsInBounds farVertexMesh farVertexTable ∧
      save (some "out.stl") true [Node.shape (Geometry.indexedFaceSet farVertexMesh)] = none ∧
      ValidationPasses farNormalMesh oneTriangleTable ∧
      ¬ ReadsInBounds farNormalMesh oneTriangleTable ∧
      save (some "out.stl") true [Node.shape (Geometry.indexedFaceSet farNormalMesh)] = none := by
  refine ⟨validationPasses_farVertex, ?_, rfl, validationPasses_farNormal, ?_, rfl⟩
  · intro h
    obtain ⟨v, hv, _, hlt⟩ := h.1 0 (by decide) (by decide) 2 (by decide) (by decide)
    have e : Faces.getFaceVertex farVertexTable 0 2 = some 5 := by decide
    rw [e] at hv
    have hv5 : v = 5 := (Option.some.inj hv).symm
    subst hv5
    revert hlt
    decide
  · intro h
    obtain ⟨n, hn, hlt⟩ := h.2.2 (by decide) 0 (by decide)
    have e : (farNormalMesh.normalIndex.filter (fun v => decide (v ≠ -1)))[0]? = some 7 := by
      decide
    rw [e] at hn
    have hn7 : n = 7 := (Option.some.inj hn).symm
    subst hn7
    revert hlt
    decide


theorem indicesInRange_indexedTriangle : IndicesInRange indexedTriangleMesh :=
  ⟨by decide, by decide⟩

/-- C21 (amended): when the checks of `save` pass and, in addition, every entry
of `coordIndex` is `-1` or lies in `[0, coord.size()/3)` and every entry of
`normalIndex` is `-1` or lies in `[0, normal.size()/3)`, every read of the write
loops is in bounds: for every face `f` and `j` in `0, 1, 2`, `v = getFaceVertex(f,
j)` has `0 <= v` and `3 v + 2 < coord.size()`; the normal index `n` used for face
`f` (`f` itself without `normalIndex`, the `f`-th entry other than `-1` with it)
has `3 n + 2 < normal.size()`; and `save` runs its write loops to the end and
returns `true` when the file opens. -/
theorem write_loops_in_bounds {F : Type} (fname : String) (ifs : IndexedFaceSet F)
    (t : Faces.FacesState) (hsize : ifs.coordIndex.length < 2 ^ 64)
    (hvalid : ValidationPasses ifs t) (hrange : IndicesInRange ifs) :
    ReadsInBounds ifs t ∧
      ∃ events, save (some fname) true [Node.shape (Geometry.indexedFaceSet ifs)] =
        some { success := true, events := events } := by
  obtain ⟨hbuilt, htri, hpv, hnormal, hcountEq⟩ := hvalid
  obtain ⟨hci, hni⟩ := hrange
  have hb := Faces.built_of_Faces _ _ t hsize hbuilt
  clear hsize
  have hnf : Faces.getNumberOfFaces t = t.nFaces := rfl
  have hn0 : (0 : Int) ≤ t.nFaces := by rw [hb.nFaces_eq]; omega
  have hfaces : ∀ f : Int, 0 ≤ f → f < Faces.getNumberOfFaces t → FaceInBounds t ifs.coord f :=
    fun f h0 h1 => faceInBounds_of_range hb ifs.coord hci f h0 h1 (htri f h0 h1)
  have hni3 : ∀ x ∈ ifs.normalIndex,
      x = -1 ∨ (0 ≤ x ∧ 3 * x + 2 < (ifs.normal.length : Int)) := by
    intro x hx
    rcases hni x hx with h | ⟨h0, h1⟩
    · exact Or.inl h
    · exact Or.inr ⟨h0, by omega⟩
  have hunidx : ifs.normalIndex = [] → ∀ f : Int, 0 ≤ f → f < Faces.getNumberOfFaces t →
      3 * f + 2 < (ifs.normal.length : Int) := by
    intro hnil f h0 h1
    unfold perFaceNormals at hcountEq
    rw [if_neg (by simp [hnil])] at hcountEq
    omega
  refine ⟨⟨hfaces, hunidx, ?_⟩, ?_⟩
  · intro hne f hf
    unfold perFaceNormals at hcountEq
    rw [if_pos hne, List.countP_eq_length_filter] at hcountEq
    have hlt : f < (ifs.normalIndex.filter (fun v => decide (v ≠ -1))).length := by omega
    refine ⟨_, List.getElem?_eq_getElem hlt, ?_⟩
    have hmem := List.getElem_mem hlt
    rw [List.mem_filter] at hmem
    rcases hni3 _ hmem.1 with h | ⟨_, h⟩
    · exact absurd h (by simpa using hmem.2)
    · exact h
  · have hall : ∀ f : Int, 0 ≤ f → f < 0 + ((Faces.getNumberOfFaces t).toNat : Int) →
        Faces.getFaceSize t f = some 3 := by
      intro f h0 h1
      exact htri f h0 (by rw [hnf] at h1 ⊢; rw [Int.toNat_of_nonneg hn0] at h1; omega)
    have hlen : ¬ (ifs.normal.length = 0) := fun h => hnormal (List.length_eq_zero.mp h)
    have hcount : (if ifs.normalIndex.length > 0 then
          countNormals ifs.normalIndex ifs.normalIndex.length 0 0
        else ((ifs.normal.length / 3 : Nat) : Int)) = perFaceNormals ifs := by
      unfold perFaceNormals
      rw [countNormals_full]
      by_cases hnil : ifs.normalIndex = []
      · simp [hnil]
      · have : ifs.normalIndex.length > 0 := List.length_pos.mpr hnil
        simp [hnil, this]
    have hbody : ∃ facets,
        (if ifs.normalIndex.length > 0 then
          writeIndexed t ifs.coord ifs.normal ifs.normalIndex (Faces.getNumberOfFaces t).toNat 0 0
        else writeUnindexed t ifs.coord ifs.normal (Faces.getNumberOfFaces t).toNat 0) =
          some facets := by
      by_cases hpos : ifs.normalIndex.length > 0
      · rw [if_pos hpos]
        exact writeIndexed_some t ifs.coord ifs.normal ifs.normalIndex hni3 _ 0 0
          (fun f h0 h1 => hfaces f h0
            (by rw [hnf] at h1 ⊢; rw [Int.toNat_of_nonneg hn0] at h1; omega))
      · rw [if_neg hpos]
        have hnil : ifs.normalIndex = [] := List.length_eq_zero.mp (by omega)
        exact writeUnindexed_some t ifs.coord ifs.normal _ 0 (Int.le_refl 0)
          (fun f h0 h1 => by
            have hlt : f < Faces.getNumberOfFaces t := by
              rw [hnf] at h1 ⊢; rw [Int.toNat_of_nonneg hn0] at h1; omega
            exact ⟨hfaces f h0 hlt, hunidx hnil f h0 hlt⟩)
    obtain ⟨facets, hfacets⟩ := hbody
    refine ⟨[Event.fopen true, Event.fprintf (Line.solid fname)] ++ facets ++
      [Event.fprintf (Line.endsolid (if ifs.name.length > 0 then ifs.name else "mesh")),
        Event.fclose], ?_⟩
    simp only [save, hbuilt]
    rw [checkTriangles_true t _ 0 hall]
    simp only
    rw [if_neg (by rw [hpv]; decide), if_neg hlen, hcount, if_neg (by rw [hcountEq]; simp),
      if_neg (by decide), hfacets]

/-- C21 (amended), at one triangle with an indexed normal. -/
theorem write_loops_in_bounds_witness :
    ReadsInBounds indexedTriangleMesh oneTriangleTable ∧
      ∃ events,
        save (some "out.stl") true [Node.shape (Geometry.indexedFaceSet indexedTriangleMesh)] =
          some { success := true, events := events } :=
  write_loops_in_bounds "out.stl" indexedTriangleMesh oneTriangleTable (by decide)
    validationPasses_indexedTriangle indicesInRange_indexedTriangle

end SaverStl
